import Mathlib

/-!
Shallow embedding of the `ouroboros` Antigravity bridge
(`src/ouroboros/antigravity_client.py`, `src/ouroboros/antigravity_auth.py`)
and proofs about its translation, dispatch, token-lifecycle and state-encoding
behaviour.

Modelling conventions:
* Python values flowing through the translator are modelled by `PyVal`
  (JSON-representable values; numbers are modelled as integers — no claim
  under verification evaluates float arithmetic).
* Python `dict.get(k, d)` / truthiness / `==`-against-a-string-literal are
  modelled by `lookupKv`, `pyTruthy`, `pyEqStr`.
* `json.dumps` (default flags: `ensure_ascii=True`, separators `", "` and
  `": "`) is modelled by `jsonDumps`; `json.loads` by the fuelled
  recursive-descent parser `pyParseJson`.  The parser accepts the JSON value
  grammar with integer numerals; a numeral with a fraction or exponent makes
  the parse fail, which the translator treats like any other parse failure.
* A Python code path that raises an exception is modelled by `Option`/`Except`
  with `none`/`.error` meaning "raises".
-/

namespace Ouroboros

/-- JSON-representable Python values (model of the dict/list/str/int/bool/None
payloads flowing through `antigravity_client.py`). -/
inductive PyVal where
  | none
  | bool (b : Bool)
  | int (n : Int)
  | str (s : String)
  | list (xs : List PyVal)
  | dict (kvs : List (String × PyVal))

/-- Association-list lookup, model of `dict[k]` / the hit case of `dict.get`. -/
def lookupKv (kvs : List (String × PyVal)) (k : String) : Option PyVal :=
  match kvs with
  | [] => Option.none
  | (k0, v) :: rest => if k0 = k then some v else lookupKv rest k

/-- Python truthiness (`if x:`) on modelled values. -/
def pyTruthy : PyVal → Bool
  | .none => false
  | .bool b => b
  | .int n => n != 0
  | .str s => s != ""
  | .list xs => !xs.isEmpty
  | .dict kvs => !kvs.isEmpty

/-- Python `x == "lit"` for a string literal `lit` (only strings compare equal
to a string in Python). -/
def pyEqStr (v : PyVal) (s : String) : Bool :=
  match v with
  | .str t => t == s
  | _ => false

/-- Lower-case hex digit, as used by `json.dumps` `\uXXXX` escapes. -/
def hexDigitChar (d : Nat) : Char :=
  if d < 10 then Char.ofNat (48 + d) else Char.ofNat (87 + d)

/-- Four lower-case hex digits of `n % 0x10000`. -/
def hex4 (n : Nat) : String :=
  String.mk [hexDigitChar (n / 4096 % 16), hexDigitChar (n / 256 % 16),
             hexDigitChar (n / 16 % 16), hexDigitChar (n % 16)]

/-- `json.dumps` escaping of one character with `ensure_ascii=True`:
`"` and `\` get a backslash, the short escapes cover BS/TAB/LF/FF/CR, every
other character outside `0x20..0x7e` becomes `\uXXXX` (a surrogate pair for
code points above `0xFFFF`). -/
def escChar (c : Char) : String :=
  let n := c.toNat
  if n = 34 then "\\\""
  else if n = 92 then "\\\\"
  else if n = 8 then "\\b"
  else if n = 9 then "\\t"
  else if n = 10 then "\\n"
  else if n = 12 then "\\f"
  else if n = 13 then "\\r"
  else if n < 32 ∨ 126 < n then
    if n ≤ 65535 then "\\u" ++ hex4 n
    else
      let m := n - 65536
      "\\u" ++ hex4 (55296 + m / 1024) ++ "\\u" ++ hex4 (56320 + m % 1024)
  else String.mk [c]

/-- `json.dumps` of a string: quoted, characters escaped. -/
def jsonQuote (s : String) : String :=
  "\"" ++ String.join (s.data.map escChar) ++ "\""

mutual

/-- Model of `json.dumps(v)` with the default separators. -/
def jsonDumps : PyVal → String
  | .none => "null"
  | .bool true => "true"
  | .bool false => "false"
  | .int n => toString n
  | .str s => jsonQuote s
  | .list xs => "[" ++ ", ".intercalate (jsonDumpsList xs) ++ "]"
  | .dict kvs => "\x7b" ++ ", ".intercalate (jsonDumpsKvs kvs) ++ "\x7d"

def jsonDumpsList : List PyVal → List String
  | [] => []
  | v :: rest => jsonDumps v :: jsonDumpsList rest

def jsonDumpsKvs : List (String × PyVal) → List String
  | [] => []
  | (k, v) :: rest => (jsonQuote k ++ ": " ++ jsonDumps v) :: jsonDumpsKvs rest

end

/-- JSON whitespace. -/
def isJsonWs (c : Char) : Bool :=
  c == ' ' || c == '\t' || c == '\n' || c == '\r'

/-- Drop leading JSON whitespace. -/
def skipWs : List Char → List Char
  | [] => []
  | c :: rest => if isJsonWs c then skipWs rest else c :: rest

/-- Value of a hex digit character, if any. -/
def hexVal (c : Char) : Option Nat :=
  let n := c.toNat
  if 48 ≤ n ∧ n ≤ 57 then some (n - 48)
  else if 97 ≤ n ∧ n ≤ 102 then some (n - 87)
  else if 65 ≤ n ∧ n ≤ 70 then some (n - 55)
  else Option.none

/-- Parse exactly four hex digits. -/
def parseHex4Chars : List Char → Option (Nat × List Char)
  | a :: b :: c :: d :: rest => do
    let va ← hexVal a
    let vb ← hexVal b
    let vc ← hexVal c
    let vd ← hexVal d
    some (va * 4096 + vb * 256 + vc * 16 + vd, rest)
  | _ => Option.none

/-- Parse the body of a JSON string literal (after the opening quote),
returning the decoded characters and the input after the closing quote.
`\uXXXX` escapes are decoded, a high/low surrogate pair is combined; a lone
surrogate makes the parse fail (Lean characters are Unicode scalar values). -/
def parseStrChars : List Char → Option (List Char × List Char)
  | [] => Option.none
  | c :: rest =>
    if c == '"' then some ([], rest)
    else if c == '\\' then
      match rest with
      | [] => Option.none
      | e :: rest2 =>
        if e == '"' then (parseStrChars rest2).map (fun p => ('"' :: p.1, p.2))
        else if e == '\\' then (parseStrChars rest2).map (fun p => ('\\' :: p.1, p.2))
        else if e == '/' then (parseStrChars rest2).map (fun p => ('/' :: p.1, p.2))
        else if e == 'b' then (parseStrChars rest2).map (fun p => (Char.ofNat 8 :: p.1, p.2))
        else if e == 'f' then (parseStrChars rest2).map (fun p => (Char.ofNat 12 :: p.1, p.2))
        else if e == 'n' then (parseStrChars rest2).map (fun p => ('\n' :: p.1, p.2))
        else if e == 'r' then (parseStrChars rest2).map (fun p => (Char.ofNat 13 :: p.1, p.2))
        else if e == 't' then (parseStrChars rest2).map (fun p => ('\t' :: p.1, p.2))
        else if e == 'u' then
          match rest2 with
          | a :: b :: c2 :: d :: rest3 =>
            match hexVal a, hexVal b, hexVal c2, hexVal d with
            | some va, some vb, some vc, some vd =>
              let n := va * 4096 + vb * 256 + vc * 16 + vd
              if 55296 ≤ n ∧ n ≤ 56319 then
                match rest3 with
                | '\\' :: 'u' :: a2 :: b2 :: c3 :: d2 :: rest5 =>
                  match hexVal a2, hexVal b2, hexVal c3, hexVal d2 with
                  | some wa, some wb, some wc, some wd =>
                    let m := wa * 4096 + wb * 256 + wc * 16 + wd
                    if 56320 ≤ m ∧ m ≤ 57343 then
                      (parseStrChars rest5).map
                        (fun p => (Char.ofNat (65536 + (n - 55296) * 1024 + (m - 56320)) :: p.1, p.2))
                    else Option.none
                  | _, _, _, _ => Option.none
                | _ => Option.none
              else if 56320 ≤ n ∧ n ≤ 57343 then Option.none
              else (parseStrChars rest3).map (fun p => (Char.ofNat n :: p.1, p.2))
            | _, _, _, _ => Option.none
          | _ => Option.none
        else Option.none
    else if c.toNat < 32 then Option.none
    else (parseStrChars rest).map (fun p => (c :: p.1, p.2))
termination_by l => l.length
decreasing_by all_goals simp_wf <;> omega

/-- Parse a run of decimal digits. -/
def parseDigits : List Char → Option (Nat × List Char)
  | c :: rest =>
    if c.isDigit then
      match parseDigits rest with
      | some (n, rest2) => some ((c.toNat - 48) * 10 ^ (rest.length - rest2.length) + n, rest2)
      | Option.none => some (c.toNat - 48, rest)
    else Option.none
  | [] => Option.none

mutual

/-- Fuelled recursive-descent model of `json.loads` on a character list:
parse one JSON value, return it and the rest of the input.  Numbers are
integer numerals only (see module docstring). -/
def parseVal : Nat → List Char → Option (PyVal × List Char)
  | 0, _ => Option.none
  | fuel + 1, l =>
    match skipWs l with
    | [] => Option.none
    | c :: rest =>
      if c == '"' then
        (parseStrChars rest).map (fun p => (PyVal.str (String.mk p.1), p.2))
      else if c == '\x7b' then
        match skipWs rest with
        | '\x7d' :: rest2 => some (PyVal.dict [], rest2)
        | rest2 => (parseMembers fuel rest2).map (fun p => (PyVal.dict p.1, p.2))
      else if c == '[' then
        match skipWs rest with
        | ']' :: rest2 => some (PyVal.list [], rest2)
        | rest2 => (parseItems fuel rest2).map (fun p => (PyVal.list p.1, p.2))
      else if c == 't' then
        match rest with
        | 'r' :: 'u' :: 'e' :: rest2 => some (PyVal.bool true, rest2)
        | _ => Option.none
      else if c == 'f' then
        match rest with
        | 'a' :: 'l' :: 's' :: 'e' :: rest2 => some (PyVal.bool false, rest2)
        | _ => Option.none
      else if c == 'n' then
        match rest with
        | 'u' :: 'l' :: 'l' :: rest2 => some (PyVal.none, rest2)
        | _ => Option.none
      else if c == '-' then
        match parseDigits rest with
        | some (n, rest2) =>
          match rest2 with
          | d :: _ => if d == '.' || d == 'e' || d == 'E' then Option.none
                      else some (PyVal.int (-(n : Int)), rest2)
          | [] => some (PyVal.int (-(n : Int)), [])
        | Option.none => Option.none
      else if c.isDigit then
        match parseDigits (c :: rest) with
        | some (n, rest2) =>
          match rest2 with
          | d :: _ => if d == '.' || d == 'e' || d == 'E' then Option.none
                      else some (PyVal.int (n : Int), rest2)
          | [] => some (PyVal.int (n : Int), [])
        | Option.none => Option.none
      else Option.none

/-- Parse the members of a JSON object (positioned at the first key). -/
def parseMembers : Nat → List Char → Option (List (String × PyVal) × List Char)
  | 0, _ => Option.none
  | fuel + 1, l =>
    match skipWs l with
    | '"' :: rest =>
      match parseStrChars rest with
      | Option.none => Option.none
      | some (key, rest2) =>
        match skipWs rest2 with
        | ':' :: rest3 =>
          match parseVal fuel rest3 with
          | Option.none => Option.none
          | some (v, rest4) =>
            match skipWs rest4 with
            | ',' :: rest5 =>
              (parseMembers fuel rest5).map
                (fun p => ((String.mk key, v) :: p.1, p.2))
            | '\x7d' :: rest5 => some ([(String.mk key, v)], rest5)
            | _ => Option.none
        | _ => Option.none
    | _ => Option.none

/-- Parse the items of a JSON array (positioned at the first item). -/
def parseItems : Nat → List Char → Option (List PyVal × List Char)
  | 0, _ => Option.none
  | fuel + 1, l =>
    match parseVal fuel l with
    | Option.none => Option.none
    | some (v, rest) =>
      match skipWs rest with
      | ',' :: rest2 => (parseItems fuel rest2).map (fun p => (v :: p.1, p.2))
      | ']' :: rest2 => some ([v], rest2)
      | _ => Option.none

end

/-- Model of `json.loads(s)`: parse one value, require only whitespace after
it; `Option.none` models a raised `JSONDecodeError`. -/
def pyParseJson (s : String) : Option PyVal :=
  match parseVal (s.length + 1) s.data with
  | some (v, rest) => if (skipWs rest).isEmpty then some v else Option.none
  | Option.none => Option.none

/-! ### OpenAI-side message model (`antigravity_client.py`)

A chat message is a Python dict; we model exactly the keys the translator
reads (`role`, `content`, `tool_calls`, `tool_call_id`, `name`), each as
`Option` (`Option.none` = key absent) so every `dict.get` default is explicit.
-/

/-- One entry of `msg["tool_calls"]`; `function` holds the `"function"`
sub-dict (`Option.none` = key absent, the source defaults it to `{}`), and
`thought_signature` models the `"_thought_signature"` key written by
`_google_to_openai_message`. -/
structure ToolCall where
  id : Option String
  fname : Option String
  arguments : Option PyVal
  thought_signature : Option PyVal

/-- An OpenAI-style chat message as read by `_openai_to_google`. -/
structure Msg where
  role : Option String
  content : Option PyVal
  tool_calls : Option (List ToolCall)
  tool_call_id : Option String
  name : Option String

/-! ### Google-side wire model -/

/-- A `functionCall` wire object (`name`, `args`, `id`). -/
structure FunctionCall where
  name : String
  args : PyVal
  id : String

/-- A `functionResponse` wire object (`name`, `id`, `response`). -/
structure FunctionResponse where
  name : String
  id : String
  response : PyVal

/-- One element of a wire `parts` list.  `text` carries a `PyVal` because the
source appends the raw message content (`parts.append({"text": content})`),
which need not be a string.  A `functionCall` part optionally carries a
`thoughtSignature`. -/
inductive Part where
  | text (v : PyVal)
  | functionCall (fc : FunctionCall) (thoughtSignature : Option PyVal)
  | functionResponse (fr : FunctionResponse)
  | inlineData (mimeType : String) (data : String)
  | fileData (fileUri : String)

/-- One element of the wire `contents` list. -/
structure WireContent where
  role : String
  parts : List Part

/-- The translated request body (the keys built by `_openai_to_google`;
tool declarations are converted by the separate `_convert_tools` and are not
involved in any claim under verification, so the `tools` key is not
modelled). -/
structure RequestBody where
  contents : List WireContent
  systemInstruction : Option (List Part)

/-- Truthiness of `msg.get("tool_calls")` (lines 112 and 83): present and a
non-empty list. -/
def toolCallsTruthy (msg : Msg) : Bool :=
  match msg.tool_calls with
  | some tcs => !tcs.isEmpty
  | Option.none => false

/-- Scan of one message's `tool_calls` for a call whose id matches (lines
84-86): on a match, `tc.get("function", {}).get("name", tool_call_id)` is
returned at once. -/
def findTcName (tool_call_id : String) : List ToolCall → Option String
  | [] => Option.none
  | tc :: rest =>
    if tc.id = some tool_call_id then some (tc.fname.getD tool_call_id)
    else findTcName tool_call_id rest

/-- The `for msg in reversed(messages)` scan of `_resolve_fn_name`. -/
def resolveScan (tool_call_id : String) : List Msg → String
  | [] => tool_call_id
  | msg :: rest =>
    if msg.role = some "assistant" ∧ toolCallsTruthy msg then
      match findTcName tool_call_id (msg.tool_calls.getD []) with
      | some nm => nm
      | Option.none => resolveScan tool_call_id rest
    else resolveScan tool_call_id rest

/-- `_resolve_fn_name`: scan the messages in reverse for an assistant message
whose (truthy) `tool_calls` contain a call with the given id; return that
call's function name (defaulting to the id when the name key is absent), or
the id itself when no assistant message matches. -/
def resolve_fn_name (messages : List Msg) (tool_call_id : String) : String :=
  resolveScan tool_call_id messages.reverse

/-- Model of Python `str(v)` as applied at lines 194/196 of the source.  It is
exact on strings, booleans, `None` and integers; for containers the source
relies on `str`'s repr, which no claim evaluates — rendered here via
`jsonDumps`. -/
def pyStr (v : PyVal) : String :=
  match v with
  | .str s => s
  | .none => "None"
  | .bool true => "True"
  | .bool false => "False"
  | .int n => toString n
  | v => jsonDumps v

/-- `content if isinstance(content, str) else json.dumps(content)`
(lines 104 and 147). -/
def renderText (v : PyVal) : String :=
  match v with
  | .str s => s
  | v => jsonDumps v

/-- The multimodal branch (lines 170-194): translate one content-list item to
the parts it appends.  `Option.none` models a raised exception
(`item["text"]` on a missing key, `.get` on a non-dict `image_url` value,
`startswith`/`split` on a non-string url, an unpack failure when a `data:` url
has no `";base64,"` separator). -/
def partsOfItem (item : PyVal) : Option (List Part) :=
  match item with
  | .dict kvs =>
    if pyEqStr ((lookupKv kvs "type").getD .none) "text" then
      match lookupKv kvs "text" with
      | some t => some [Part.text t]
      | Option.none => Option.none
    else if pyEqStr ((lookupKv kvs "type").getD .none) "image_url" then
      match (lookupKv kvs "image_url").getD (.dict []) with
      | .dict ikvs =>
        match (lookupKv ikvs "url").getD (.str "") with
        | .str u =>
          if u.startsWith "data:" then
            match u.splitOn ";base64," with
            | mime :: b :: rest =>
              some [Part.inlineData ((mime.replace "data:" "")) (";base64,".intercalate (b :: rest))]
            | _ => Option.none
          else some [Part.fileData u]
        | _ => Option.none
      | _ => Option.none
    else some []
  | item => some [Part.text (.str (pyStr item))]

/-- Accumulate the item parts of a multimodal content list. -/
def partsOfItems : List PyVal → Option (List Part)
  | [] => some []
  | item :: rest => do
    let ps ← partsOfItem item
    let rest' ← partsOfItems rest
    some (ps ++ rest')

/-- The function-call part built for one `tool_calls` entry (lines 116-135):
arguments given as a string are parsed as JSON, falling back to
`{"raw": arguments}`; the id defaults to `call_{idx}`; a truthy
`_thought_signature` is restored as `thoughtSignature`. -/
def fcPartOfToolCall (idx : Nat) (tc : ToolCall) : Part :=
  let args0 := tc.arguments.getD (.str "\x7b\x7d")
  let args :=
    match args0 with
    | .str s =>
      match pyParseJson s with
      | some v => v
      | Option.none => PyVal.dict [("raw", .str s)]
    | v => v
  Part.functionCall
    { name := tc.fname.getD "", args := args, id := tc.id.getD ("call_" ++ toString idx) }
    (match tc.thought_signature with
     | some ts => if pyTruthy ts then some ts else Option.none
     | Option.none => Option.none)

/-- Translation state: the current `system_instruction` and the accumulated
`contents` (in order). -/
structure TransState where
  system_instruction : Option (List Part)
  contents : List WireContent

/-- Translate one message (the body of the `for msg in messages:` loop of
`_openai_to_google`), appending to the state; `Option.none` models a raised
exception. -/
def translateMsg (messages : List Msg) (st : TransState) (msg : Msg) :
    Option TransState :=
  let role := msg.role.getD "user"
  let content := msg.content.getD (.str "")
  if role = "system" then
    some { st with system_instruction := some [Part.text (.str (renderText content))] }
  else
    let google_role := if role = "user" then "user" else "model"
    if role = "assistant" ∧ toolCallsTruthy msg then
      let parts0 := if pyTruthy content then [Part.text content] else []
      let fcParts := ((msg.tool_calls.getD []).enum.map fun p => fcPartOfToolCall p.1 p.2)
      some { st with contents := st.contents ++ [⟨google_role, parts0 ++ fcParts⟩] }
    else if role = "tool" then
      let tool_call_id := msg.tool_call_id.getD ""
      let name0 := msg.name.getD ""
      let name := if name0 = "" then resolve_fn_name messages tool_call_id else name0
      let text := renderText content
      let response_data :=
        match pyParseJson text with
        | some v => v
        | Option.none => PyVal.dict [("result", .str text)]
      let response_data :=
        match response_data with
        | .dict kvs => PyVal.dict kvs
        | v => PyVal.dict [("result", v)]
      some { st with contents := st.contents ++
        [⟨"user", [Part.functionResponse ⟨name, tool_call_id, response_data⟩]⟩] }
    else
      let parts? : Option (List Part) :=
        match content with
        | .str s => some [Part.text (.str s)]
        | .list items => partsOfItems items
        | v => some [Part.text (.str (pyStr v))]
      match parts? with
      | some parts => some { st with contents := st.contents ++ [⟨google_role, parts⟩] }
      | Option.none => Option.none

/-- `_openai_to_google` (without the separately-converted tool declarations):
fold the per-message translation over the list, then build the body; the
`systemInstruction` key is set only when the final `system_instruction` value
is truthy (a non-empty dict always is). -/
def openai_to_google (messages : List Msg) : Option RequestBody :=
  match messages.foldlM (translateMsg messages) ⟨Option.none, []⟩ with
  | some st => some ⟨st.contents, st.system_instruction⟩
  | Option.none => Option.none

/-! ### Response conversion (`_google_to_openai_message`, `_extract_usage`)

The response reaching these functions is the raw `resp.json()` value, so both
are modelled directly on `PyVal`, with `Option.none` for a raised exception.
Function-call `name`/`id` values are modelled as strings (a non-string value
there is outside the model). -/

/-- Python indexing `xs[0]` as used on `candidates`. -/
def pyIndex0 (v : PyVal) : Option PyVal :=
  match v with
  | .list (x :: _) => some x
  | .str s => if s = "" then Option.none else some (.str (s.take 1))
  | _ => Option.none

/-- Python iteration `for x in v` (lists, strings and dict keys are iterable;
anything else raises). -/
def iterElems (v : PyVal) : Option (List PyVal) :=
  match v with
  | .list xs => some xs
  | .str s => some (s.data.map fun c => PyVal.str (String.mk [c]))
  | .dict kvs => some (kvs.map fun kv => PyVal.str kv.1)
  | _ => Option.none

/-- The loop body over response parts (lines 270-292): a truthy `thought`
skips the part; a `text` key collects its raw value; otherwise a
`functionCall` key becomes a tool-call entry whose arguments are the
re-serialized `args` and whose `_thought_signature` is the part's raw
`thoughtSignature` when truthy.  State: collected text values, collected tool
calls, `tc_index`. -/
def partStep (st : List PyVal × List ToolCall × Nat) (part : PyVal) :
    Option (List PyVal × List ToolCall × Nat) :=
  match part with
  | .dict kvs =>
    if pyTruthy ((lookupKv kvs "thought").getD .none) then some st
    else
      match lookupKv kvs "text" with
      | some t => some (st.1 ++ [t], st.2.1, st.2.2)
      | Option.none =>
        match lookupKv kvs "functionCall" with
        | some (.dict fkvs) =>
          let id? : Option String :=
            match lookupKv fkvs "id" with
            | some (.str s) => some s
            | Option.none => some ("call_" ++ toString st.2.2)
            | some _ => Option.none
          let name? : Option String :=
            match lookupKv fkvs "name" with
            | some (.str s) => some s
            | Option.none => some ""
            | some _ => Option.none
          match id?, name? with
          | some id, some nm =>
            let args := (lookupKv fkvs "args").getD (.dict [])
            let ts := (lookupKv kvs "thoughtSignature").getD .none
            let tc : ToolCall :=
              { id := some id, fname := some nm,
                arguments := some (.str (jsonDumps args)),
                thought_signature := if pyTruthy ts then some ts else Option.none }
            some (st.1, st.2.1 ++ [tc], st.2.2 + 1)
          | _, _ => Option.none
        | some _ => Option.none
        | Option.none => some st
  | _ => Option.none

/-- Fold `partStep` over the parts. -/
def partsFold (parts : List PyVal) : Option (List PyVal × List ToolCall × Nat) :=
  parts.foldlM partStep ([], [], 0)

/-- `"\n".join(text_parts)`: every element must be a string. -/
def joinTextParts (vals : List PyVal) : Option String :=
  match vals with
  | [] => some ""
  | [v] => match v with | .str s => some s | _ => Option.none
  | v :: rest =>
    match v, joinTextParts rest with
    | .str s, some r => some (s ++ "\n" ++ r)
    | _, _ => Option.none

/-- `candidates[0].get("content", {}).get("parts", [])` as an iterable
(lines 262-264). -/
def responsePartsOf (candidates : PyVal) : Option (List PyVal) :=
  match pyIndex0 candidates with
  | Option.none => Option.none
  | some candidate =>
    match candidate with
    | .dict ckvs =>
      match (lookupKv ckvs "content").getD (.dict []) with
      | .dict okvs => iterElems ((lookupKv okvs "parts").getD (.list []))
      | _ => Option.none
    | _ => Option.none

/-- The parts list of a response, via the same `candidates` chain the parser
walks. -/
def responseParts (response : PyVal) : Option (List PyVal) :=
  match response with
  | .dict rkvs => responsePartsOf ((lookupKv rkvs "candidates").getD (.list []))
  | _ => Option.none

/-- `_google_to_openai_message`: no candidate gives
`{"role": "assistant", "content": None}`; otherwise parts are folded and the
assistant message assembled (`content` is `None` when no text part was
collected; `tool_calls` is present only when non-empty). -/
def google_to_openai_message (response : PyVal) : Option Msg :=
  match response with
  | .dict rkvs =>
    let candidates := (lookupKv rkvs "candidates").getD (.list [])
    if !pyTruthy candidates then
      some { role := some "assistant", content := some .none,
             tool_calls := Option.none, tool_call_id := Option.none, name := Option.none }
    else
      match responsePartsOf candidates with
      | Option.none => Option.none
      | some partList =>
        match partsFold partList with
        | Option.none => Option.none
        | some (textVals, toolCalls, _) =>
          let contentVal? : Option PyVal :=
            match textVals with
            | [] => some PyVal.none
            | vs => (joinTextParts vs).map PyVal.str
          match contentVal? with
          | Option.none => Option.none
          | some contentVal =>
            some { role := some "assistant", content := some contentVal,
                   tool_calls := if toolCalls.isEmpty then Option.none else some toolCalls,
                   tool_call_id := Option.none, name := Option.none }
  | _ => Option.none

/-- `int(v)` on modelled values (floats are outside the model; a non-numeric
string raises). -/
def pyToInt (v : PyVal) : Option Int :=
  match v with
  | .int n => some n
  | .bool b => some (if b then 1 else 0)
  | .str s =>
    match parseDigits s.data with
    | some (n, []) => some (n : Int)
    | _ =>
      match s.data with
      | '-' :: rest =>
        match parseDigits rest with
        | some (n, []) => some (-(n : Int))
        | _ => Option.none
      | _ => Option.none
  | _ => Option.none

/-- The usage summary built by `_extract_usage` (the constant float
`"cost": 0.0` is not modelled numerically). -/
structure Usage where
  prompt_tokens : Int
  completion_tokens : Int
  total_tokens : Int
  cached_tokens : Int

/-- `_extract_usage`: token counts default to `0`; `total` is their sum. -/
def extract_usage (response : PyVal) : Option Usage :=
  match response with
  | .dict rkvs =>
    let meta := (lookupKv rkvs "usageMetadata").getD (.dict [])
    match meta with
    | .dict mkvs => do
      let p ← pyToInt ((lookupKv mkvs "promptTokenCount").getD (.int 0))
      let c ← pyToInt ((lookupKv mkvs "candidatesTokenCount").getD (.int 0))
      let cached ← pyToInt ((lookupKv mkvs "cachedContentTokenCount").getD (.int 0))
      some { prompt_tokens := p, completion_tokens := c,
             total_tokens := p + c, cached_tokens := cached }
    | _ => Option.none
  | _ => Option.none

/-! ### Transport dispatch (`AntigravityClient.chat`, lines 398-495)

One HTTP post is modelled by its observable outcome; each endpoint of the
ordered list carries the outcome of its first post and the outcome of the
one retry post made only after a 401. -/

/-- Outcome of one `requests.post`: a response (status, `.text`, and the
`.json()` result — `Option.none` when `.json()` raises), a timeout, or
another `RequestException`. -/
inductive HttpOutcome where
  | resp (status : Nat) (text : String) (jsonBody : Option PyVal)
  | timeout
  | reqError (msg : String)

/-- One endpoint of the ordered `ENDPOINTS` list together with the outcomes
of the posts the dispatcher may issue against it. -/
structure EndpointRun where
  endpoint : String
  first : HttpOutcome
  retry : HttpOutcome

/-- Result of processing one endpoint: success, an uncaught exception
(propagates to the caller), or advance-with-recorded-reason. -/
inductive StepOut where
  | done (msg : Msg) (usage : Usage)
  | raised
  | skip (lastError : String)

/-- `str(requests.HTTPError)` raised by `resp.raise_for_status()`, modelled
abstractly by its status code. -/
def httpErrorMsg (status : Nat) : String :=
  toString status ++ " Error"

/-- `"response" in data and "candidates" in data["response"]` unwrapping
(lines 479-480); `in` on an int/bool/None raises. -/
def unwrapResponse (data : PyVal) : Option PyVal := do
  let hasResp ←
    match data with
    | .dict kvs => some ((lookupKv kvs "response").isSome)
    | .list xs => some (xs.any fun x => pyEqStr x "response")
    | .str s => some (decide ((s.splitOn "response").length > 1))
    | _ => Option.none
  if hasResp then
    match data with
    | .dict kvs =>
      match lookupKv kvs "response" with
      | some r => do
        let hasCand ←
          match r with
          | .dict rkvs => some ((lookupKv rkvs "candidates").isSome)
          | .list xs => some (xs.any fun x => pyEqStr x "candidates")
          | .str s => some (decide ((s.splitOn "candidates").length > 1))
          | _ => Option.none
        if hasCand then some r else some data
      | Option.none => Option.none
    | _ => Option.none
  else some data

/-- The status-code checks applied to the (possibly retried) response
(lines 417-484): 429 and 403 record and advance; 400/404 record a
body-excerpt diagnostic and advance; any other status of at least 400 makes
`raise_for_status` raise an `HTTPError`, which the `RequestException` handler
records before advancing; otherwise the body is decoded, unwrapped, and
parsed into the success result (a failure inside decoding raises out of the
dispatcher, except for `.json()` whose error is a `RequestException`). -/
def checkResp (endpoint : String) (status : Nat) (text : String)
    (jsonBody : Option PyVal) : StepOut :=
  if status = 429 then .skip ("429 from " ++ endpoint)
  else if status = 403 then .skip ("403 from " ++ endpoint ++ ": " ++ text.take 200)
  else if status = 400 ∨ status = 404 then
    .skip (toString status ++ " from " ++ endpoint ++ ": " ++ text.take 200)
  else if 400 ≤ status then .skip ("Error on " ++ endpoint ++ ": " ++ httpErrorMsg status)
  else
    match jsonBody with
    | Option.none => .skip ("Error on " ++ endpoint ++ ": invalid JSON")
    | some data0 =>
      match unwrapResponse data0 with
      | Option.none => .raised
      | some data =>
        match google_to_openai_message data, extract_usage data with
        | some m, some u => .done m u
        | _, _ => .raised

/-- Handle one post outcome: a timeout or transport error is recorded and the
endpoint skipped, a response goes through the status checks. -/
def afterPost (endpoint : String) (o : HttpOutcome) : StepOut :=
  match o with
  | .timeout => .skip ("Timeout on " ++ endpoint)
  | .reqError e => .skip ("Error on " ++ endpoint ++ ": " ++ e)
  | .resp status text body => checkResp endpoint status text body

/-- Process one endpoint: a 401 on the first post triggers a token re-fetch
(`get_access_token()`) and exactly one retry post against the same endpoint,
whose outcome then goes through the same handling. -/
def runEndpoint (e : EndpointRun) : StepOut :=
  match e.first with
  | .timeout => .skip ("Timeout on " ++ e.endpoint)
  | .reqError m => .skip ("Error on " ++ e.endpoint ++ ": " ++ m)
  | .resp status text body =>
    if status = 401 then afterPost e.endpoint e.retry
    else checkResp e.endpoint status text body

/-- Overall outcome of `chat`'s endpoint loop. -/
inductive DispatchOutcome where
  | ok (msg : Msg) (usage : Usage)
  | raisedMalformed
  | exhausted (message : String)

/-- Rendering of `last_error` inside the final f-string (`None` before any
endpoint was tried). -/
def lastErrorText (lastError : Option String) : String :=
  match lastError with
  | some s => s
  | Option.none => "None"

/-- The `for endpoint in ENDPOINTS` loop with the running `last_error`,
ending in `raise RuntimeError(...)` when every endpoint was skipped. -/
def chatDispatch : List EndpointRun → Option String → DispatchOutcome
  | [], lastError =>
    .exhausted ("All Antigravity endpoints failed. Last error: " ++ lastErrorText lastError)
  | e :: rest, _lastError =>
    match runEndpoint e with
    | .done m u => .ok m u
    | .raised => .raisedMalformed
    | .skip err => chatDispatch rest (some err)

/-! ### Token lifecycle (`antigravity_auth.py`)

`get_access_token` / `refresh_access_token` are modelled as pure functions of
the stored record, the current time (`time.time()`, modelled as an integer),
and the token-endpoint response; each result carries the number of network
requests performed.  Stored fields are typed (the record is written by this
module itself). -/

/-- The on-disk credential record (`~/.ouroboros/antigravity_tokens.json`). -/
structure StoredTokens where
  refresh_token : Option String
  access_token : Option String
  expires_at : Option Int
  email : Option String
  project_id : Option String

/-- Truthiness of an optional string field (`stored.get(k)` then `if not x`). -/
def strTruthy (s? : Option String) : Bool :=
  match s? with
  | some s => s != ""
  | Option.none => false

/-- The token endpoint's JSON body on HTTP success:
`access_token` (read with `[]`, so absence raises `KeyError`),
`expires_in` (default 3600), optional rotated `refresh_token`. -/
structure TokenResponse where
  access_token : Option String
  expires_in : Option Int
  refresh_token : Option String

/-- Failures of the token lifecycle functions. -/
inductive AuthError where
  | notLoggedIn
  | noRefreshToken
  | httpError (msg : String)
  | keyError

/-- Result of a lifecycle call: how many token-endpoint requests were made,
and either the access token with the updated stored record, or the raised
error. -/
structure AuthOutcome where
  calls : Nat
  result : Except AuthError (String × StoredTokens)

/-- `refresh_access_token(refresh_token=...)`: choose
`refresh_token or stored.get("refresh_token", "")`, fail with no request if
falsy; otherwise POST once; on success store the new `access_token`,
`expires_at = now + expires_in - 60`, and the rotated `refresh_token` when
the response carries a truthy one. -/
def refresh_access_token (stored : StoredTokens) (refresh_token? : Option String)
    (now : Int) (net : Except String TokenResponse) : AuthOutcome :=
  let rt :=
    match refresh_token? with
    | some s => if s != "" then s else stored.refresh_token.getD ""
    | Option.none => stored.refresh_token.getD ""
  if rt = "" then { calls := 0, result := .error .noRefreshToken }
  else
    match net with
    | .error e => { calls := 1, result := .error (.httpError e) }
    | .ok td =>
      match td.access_token with
      | Option.none => { calls := 1, result := .error .keyError }
      | some tok =>
        let expires_in := td.expires_in.getD 3600
        let stored' : StoredTokens :=
          { stored with
            access_token := some tok,
            expires_at := some (now + expires_in - 60),
            refresh_token :=
              if strTruthy td.refresh_token then td.refresh_token
              else stored.refresh_token }
        { calls := 1, result := .ok (tok, stored') }

/-- `get_access_token()`: not-logged-in when the stored `refresh_token` is
falsy; the cached `access_token` is returned untouched, with no request, when
truthy and `time.time() < expires_at` (absent `expires_at` defaults to 0);
otherwise delegate to `refresh_access_token(stored["refresh_token"])`. -/
def get_access_token (stored : StoredTokens) (now : Int)
    (net : Except String TokenResponse) : AuthOutcome :=
  if ¬ strTruthy stored.refresh_token then
    { calls := 0, result := .error .notLoggedIn }
  else
    let expires_at := stored.expires_at.getD 0
    if strTruthy stored.access_token ∧ now < expires_at then
      { calls := 0, result := .ok (stored.access_token.getD "", stored) }
    else
      refresh_access_token stored stored.refresh_token now net

/-! ### Persistence of the credential record (`_save_stored`)

`_save_stored` is modelled as the sequence of externally observable
filesystem operations it performs.  `Path.write_text` opens the target for
writing (truncating it) and then writes the full content — two observable
steps, between which a concurrent reader sees an empty file. -/

/-- Observable filesystem operations. -/
inductive FsOp where
  | mkdirParents (path : String)
  | openTruncate (path : String)
  | writeContent (path : String) (content : String)
  | chmod (path : String)
  | writeTempFile (path : String) (content : String)
  | renameOver (src : String) (dst : String)

/-- `_TOKEN_DIR` with the default environment. -/
def TOKEN_DIR : String := "~/.ouroboros"

/-- `_TOKEN_FILE`. -/
def TOKEN_FILE : String := TOKEN_DIR ++ "/antigravity_tokens.json"

/-- The operation sequence of `_save_stored(data)` (lines 99-105): create the
directory, then `write_text` (truncate + write) on the token file itself,
then best-effort `chmod 0600`. -/
def save_stored_ops (content : String) : List FsOp :=
  [ .mkdirParents TOKEN_DIR,
    .openTruncate TOKEN_FILE,
    .writeContent TOKEN_FILE content,
    .chmod TOKEN_FILE ]

/-- Content of `path` after one operation (`Option.none` = file absent);
`writeTempFile`/`renameOver` model the write-then-replace discipline the spec
prescribes, for comparison. -/
def fsStep (path : String) (tempContents : String → Option String)
    (cur : Option String) : FsOp → Option String
  | .mkdirParents _ => cur
  | .openTruncate p => if p = path then some "" else cur
  | .writeContent p c => if p = path then some c else cur
  | .chmod _ => cur
  | .writeTempFile _ _ => cur
  | .renameOver src dst => if dst = path then tempContents src else cur

/-- All states of `path` a concurrent reader can observe while the operation
sequence runs (initial state included). -/
def observableStates (path : String) (tempContents : String → Option String)
    (init : Option String) : List FsOp → List (Option String)
  | [] => [init]
  | op :: rest =>
    init :: observableStates path tempContents (fsStep path tempContents init op) rest

/-- Modelled from the spec: "Persistence must be atomic (write-then-replace)
so a concurrent reader never observes a half-written record" — every state of
the credential file observable during the save is either the previous record
or the complete new record. -/
def AtomicPersist (ops : List FsOp) (init : Option String) (final : String) : Prop :=
  ∀ st ∈ observableStates TOKEN_FILE (fun _ => some final) init ops,
    st = init ∨ st = some final

/-! ### OAuth state encoding (`_encode_state` / `_decode_state`)

These functions are modelled at the byte level: a Python string is a list of
Unicode code points (`List Nat`), bytes are naturals below 256.  Because
`json.dumps` runs with its default `ensure_ascii=True`, the serialized
payload is pure ASCII, so the `.encode("utf-8")`/`.decode("utf-8")` steps act
as the identity embedding of ASCII code points into bytes; the UTF-8 codec is
modelled on that ASCII fragment.  `json.loads` is modelled on the JSON
subset `_encode_state` emits: one object with string keys and string
values. -/

/-- A Unicode scalar value: a code point U+0000..U+10FFFF that is not a
surrogate.  Python strings whose code points are all scalar values are
exactly the strings shared with every other string model. -/
def IsScalar (n : Nat) : Prop := n < 1114112 ∧ ¬ (55296 ≤ n ∧ n ≤ 57343)

instance (n : Nat) : Decidable (IsScalar n) := by
  unfold IsScalar
  infer_instance

/-- Lower-case hex digit of `d < 16`, as a byte. -/
def hexDigitByte (d : Nat) : Nat :=
  if d < 10 then 48 + d else 87 + d

/-- The four hex-digit bytes of `n % 0x10000` (most significant first). -/
def hex4Bytes (n : Nat) : List Nat :=
  [hexDigitByte (n / 4096 % 16), hexDigitByte (n / 256 % 16),
   hexDigitByte (n / 16 % 16), hexDigitByte (n % 16)]

/-- `json.dumps` escaping (`ensure_ascii=True`) of one code point, as
bytes. -/
def escBytes (n : Nat) : List Nat :=
  if n = 34 then [92, 34]
  else if n = 92 then [92, 92]
  else if n = 8 then [92, 98]
  else if n = 9 then [92, 116]
  else if n = 10 then [92, 110]
  else if n = 12 then [92, 102]
  else if n = 13 then [92, 114]
  else if n < 32 ∨ 126 < n then
    if n ≤ 65535 then 92 :: 117 :: hex4Bytes n
    else
      let m := n - 65536
      (92 :: 117 :: hex4Bytes (55296 + m / 1024)) ++ (92 :: 117 :: hex4Bytes (56320 + m % 1024))
  else [n]

/-- Escape a whole string (list of code points). -/
def escString : List Nat → List Nat
  | [] => []
  | n :: rest => escBytes n ++ escString rest

/-- The ASCII bytes of
`json.dumps({"verifier": v, "projectId": p})` with the default separators:
`{"verifier": "<esc v>", "projectId": "<esc p>"}` (`123`/`125` are the
braces, `34` the quote, `58 32` is `": "`, `44 32` is `", "`, and
`118 101 114 105 102 105 101 114` / `112 114 111 106 101 99 116 73 100`
spell `verifier` / `projectId`). -/
def statePayload (v p : List Nat) : List Nat :=
  [123, 34, 118, 101, 114, 105, 102, 105, 101, 114, 34, 58, 32, 34] ++
  escString v ++
  [34, 44, 32, 34, 112, 114, 111, 106, 101, 99, 116, 73, 100, 34, 58, 32, 34] ++
  escString p ++
  [34, 125]

/-- The standard base64 alphabet, as a byte for each sextet. -/
def b64CharStd (n : Nat) : Nat :=
  if n < 26 then 65 + n
  else if n < 52 then 97 + (n - 26)
  else if n < 62 then 48 + (n - 52)
  else if n = 62 then 43
  else 47

/-- Base64 encoding without padding: 3 input bytes to 4 alphabet bytes, a
2-byte tail to 3, a 1-byte tail to 2. -/
def encB64Core : List Nat → List Nat
  | a :: b :: c :: rest =>
    b64CharStd (a / 4) :: b64CharStd (a % 4 * 16 + b / 16) ::
    b64CharStd (b % 16 * 4 + c / 64) :: b64CharStd (c % 64) :: encB64Core rest
  | [a, b] => [b64CharStd (a / 4), b64CharStd (a % 4 * 16 + b / 16), b64CharStd (b % 16 * 4)]
  | [a] => [b64CharStd (a / 4), b64CharStd (a % 4 * 16)]
  | [] => []

/-- Number of `=` padding bytes `base64.b64encode` appends for an input of
length `n`. -/
def b64PadLen (n : Nat) : Nat := (3 - n % 3) % 3

/-- `base64.b64encode`: the core encoding plus `=` (byte 61) padding. -/
def encB64 (bs : List Nat) : List Nat :=
  encB64Core bs ++ List.replicate (b64PadLen bs.length) 61

/-- The urlsafe-alphabet substitution of `base64.urlsafe_b64encode`
(`+` to `-`, `/` to `_`). -/
def toUrlsafe (c : Nat) : Nat :=
  if c = 43 then 45 else if c = 47 then 95 else c

/-- `.replace("-", "+").replace("_", "/")` of `_decode_state`, per byte. -/
def fromUrlsafe (c : Nat) : Nat :=
  if c = 45 then 43 else if c = 95 then 47 else c

/-- `.rstrip("=")`: drop trailing `=` bytes. -/
def rstripEq (l : List Nat) : List Nat :=
  (l.reverse.dropWhile (fun c => c == 61)).reverse

/-- `state + "=" * ((4 - len(state) % 4) % 4)`. -/
def padB64 (l : List Nat) : List Nat :=
  l ++ List.replicate ((4 - l.length % 4) % 4) 61

/-- `_encode_state(verifier, project_id)`: urlsafe-base64 the payload bytes
and strip the padding. -/
def encode_state (v p : List Nat) : List Nat :=
  rstripEq ((encB64 (statePayload v p)).map toUrlsafe)

/-- Sextet value of a standard-alphabet byte, if any (`base64.b64decode`
with its default lenient mode only ever sees alphabet bytes on the inputs
modelled here). -/
def sextetOf (c : Nat) : Option Nat :=
  if 65 ≤ c ∧ c ≤ 90 then some (c - 65)
  else if 97 ≤ c ∧ c ≤ 122 then some (c - 97 + 26)
  else if 48 ≤ c ∧ c ≤ 57 then some (c - 48 + 52)
  else if c = 43 then some 62
  else if c = 47 then some 63
  else Option.none

/-- `base64.b64decode` on a padded standard-alphabet input: groups of four
bytes, the last group possibly carrying one or two `=`. -/
def decB64 : List Nat → Option (List Nat)
  | [] => some []
  | c1 :: c2 :: c3 :: c4 :: rest =>
    match sextetOf c1, sextetOf c2 with
    | some s1, some s2 =>
      if c3 = 61 then
        if c4 = 61 ∧ rest = [] then some [s1 * 4 + s2 / 16] else Option.none
      else
        match sextetOf c3 with
        | some s3 =>
          if c4 = 61 then
            if rest = [] then some [s1 * 4 + s2 / 16, s2 % 16 * 16 + s3 / 4] else Option.none
          else
            match sextetOf c4 with
            | some s4 =>
              (decB64 rest).map
                (fun bs => (s1 * 4 + s2 / 16) :: (s2 % 16 * 16 + s3 / 4) :: (s3 % 4 * 64 + s4) :: bs)
            | Option.none => Option.none
        | Option.none => Option.none
    | _, _ => Option.none
  | _ => Option.none

/-- `.decode("utf-8")` on the ASCII fragment (the only fragment the decode
path exercises, since the encoded payload is ASCII). -/
def utf8DecodeAscii (bs : List Nat) : Option (List Nat) :=
  if bs.all (fun c => c < 128) then some bs else Option.none

/-- Hex digit value of a byte (both cases, as accepted by `json.loads`). -/
def hexValB (c : Nat) : Option Nat :=
  if 48 ≤ c ∧ c ≤ 57 then some (c - 48)
  else if 97 ≤ c ∧ c ≤ 102 then some (c - 87)
  else if 65 ≤ c ∧ c ≤ 70 then some (c - 55)
  else Option.none

/-- `json.loads` handling of a `\uXXXX` escape (positioned after the `\u`):
the code point and the number of bytes consumed (4, or 10 when a high+low
surrogate escape pair is recombined; a lone surrogate escape is kept as its
code point, as CPython does). -/
def parseUEscape (l : List Nat) : Option (Nat × Nat) :=
  match l with
  | a :: b :: c :: d :: rest =>
    match hexValB a, hexValB b, hexValB c, hexValB d with
    | some va, some vb, some vc, some vd =>
      let n := va * 4096 + vb * 256 + vc * 16 + vd
      if 55296 ≤ n ∧ n ≤ 56319 then
        match rest with
        | 92 :: 117 :: a2 :: b2 :: c2 :: d2 :: _ =>
          match hexValB a2, hexValB b2, hexValB c2, hexValB d2 with
          | some wa, some wb, some wc, some wd =>
            let m := wa * 4096 + wb * 256 + wc * 16 + wd
            if 56320 ≤ m ∧ m ≤ 57343 then
              some (65536 + (n - 55296) * 1024 + (m - 56320), 10)
            else some (n, 4)
          | _, _, _, _ => some (n, 4)
        | _ => some (n, 4)
      else some (n, 4)
    | _, _, _, _ => Option.none
  | _ => Option.none

/-- `json.loads` string scanning (after the opening quote), producing code
points: short escapes, `\uXXXX` via `parseUEscape`, raw control bytes
rejected. -/
def parseStrBytes : List Nat → Option (List Nat × List Nat)
  | [] => Option.none
  | c :: rest =>
    if c = 34 then some ([], rest)
    else if c = 92 then
      match rest with
      | [] => Option.none
      | e :: rest2 =>
        if e = 34 then (parseStrBytes rest2).map (fun pr => (34 :: pr.1, pr.2))
        else if e = 92 then (parseStrBytes rest2).map (fun pr => (92 :: pr.1, pr.2))
        else if e = 47 then (parseStrBytes rest2).map (fun pr => (47 :: pr.1, pr.2))
        else if e = 98 then (parseStrBytes rest2).map (fun pr => (8 :: pr.1, pr.2))
        else if e = 102 then (parseStrBytes rest2).map (fun pr => (12 :: pr.1, pr.2))
        else if e = 110 then (parseStrBytes rest2).map (fun pr => (10 :: pr.1, pr.2))
        else if e = 114 then (parseStrBytes rest2).map (fun pr => (13 :: pr.1, pr.2))
        else if e = 116 then (parseStrBytes rest2).map (fun pr => (9 :: pr.1, pr.2))
        else if e = 117 then
          match parseUEscape rest2 with
          | some (n, k) => (parseStrBytes (rest2.drop k)).map (fun pr => (n :: pr.1, pr.2))
          | Option.none => Option.none
        else Option.none
    else if c < 32 then Option.none
    else (parseStrBytes rest).map (fun pr => (c :: pr.1, pr.2))
termination_by l => l.length
decreasing_by
  all_goals simp_wf
  all_goals omega

/-- JSON whitespace bytes. -/
def skipWsB : List Nat → List Nat
  | [] => []
  | c :: rest =>
    if c = 32 ∨ c = 9 ∨ c = 10 ∨ c = 13 then skipWsB rest else c :: rest

mutual

/-- Members of the state object: string keys, string values (the subset
`_encode_state` emits).  The scanner is staged: key, then value, then
separator, mirroring the sequential reads of `json.loads`'s object
scanner. -/
def parseStateMembers : Nat → List Nat → Option (List (List Nat × List Nat) × List Nat)
  | 0, _ => Option.none
  | fuel + 1, l =>
    match skipWsB l with
    | 34 :: rest =>
      match parseStrBytes rest with
      | Option.none => Option.none
      | some (key, rest2) =>
        match skipWsB rest2 with
        | 58 :: rest3 => parseMemberVal fuel key rest3
        | _ => Option.none
    | _ => Option.none
termination_by fuel _ => (fuel, 0)

/-- After `"key":` — scan the string value. -/
def parseMemberVal (fuel : Nat) (key : List Nat) (rest3 : List Nat) :
    Option (List (List Nat × List Nat) × List Nat) :=
  match skipWsB rest3 with
  | 34 :: rest4 =>
    match parseStrBytes rest4 with
    | Option.none => Option.none
    | some (val, rest5) => parseMemberSep fuel key val rest5
  | _ => Option.none
termination_by (fuel, 2)

/-- After a member — a comma continues the member list, a closing brace ends
it. -/
def parseMemberSep (fuel : Nat) (key val : List Nat) (rest5 : List Nat) :
    Option (List (List Nat × List Nat) × List Nat) :=
  match skipWsB rest5 with
  | 44 :: rest6 =>
    (parseStateMembers fuel rest6).map (fun pr => ((key, val) :: pr.1, pr.2))
  | 125 :: rest6 => some ([(key, val)], rest6)
  | _ => Option.none
termination_by (fuel, 1)

end

/-- `json.loads` on the state payload subset: one object of string
members. -/
def parseStateObj (l : List Nat) : Option (List (List Nat × List Nat)) :=
  match skipWsB l with
  | 123 :: rest =>
    match skipWsB rest with
    | 125 :: rest2 => if (skipWsB rest2).isEmpty then some [] else Option.none
    | rest2 =>
      match parseStateMembers (l.length + 1) rest2 with
      | some (kvs, rest3) => if (skipWsB rest3).isEmpty then some kvs else Option.none
      | Option.none => Option.none
  | _ => Option.none

/-- Lookup in the parsed state object. -/
def lookupState (kvs : List (List Nat × List Nat)) (k : List Nat) : Option (List Nat) :=
  match kvs with
  | [] => Option.none
  | (k0, v) :: rest => if k0 = k then some v else lookupState rest k

/-- The code points of `"verifier"`. -/
def verifierKey : List Nat := [118, 101, 114, 105, 102, 105, 101, 114]

/-- The code points of `"projectId"`. -/
def projectIdKey : List Nat := [112, 114, 111, 106, 101, 99, 116, 73, 100]

/-- `_decode_state(state)`: pad, shift the urlsafe alphabet back, base64
decode, UTF-8 decode, JSON parse, then
`(data["verifier"], data.get("projectId", ""))`. -/
def decode_state (state : List Nat) : Option (List Nat × List Nat) := do
  let normalized := (padB64 state).map fromUrlsafe
  let bytes ← decB64 normalized
  let text ← utf8DecodeAscii bytes
  let kvs ← parseStateObj text
  let v ← lookupState kvs verifierKey
  some (v, (lookupState kvs projectIdKey).getD [])

/-! ### Helper observations used in theorem statements -/

/-- The `thoughtSignature` values attached to the functionCall parts of a
wire parts list, in order. -/
def fcSigs : List Part → List (Option PyVal)
  | [] => []
  | Part.functionCall _ ts :: rest => ts :: fcSigs rest
  | _ :: rest => fcSigs rest

/-- The signature each non-thought functionCall part of a response carries
(`some` of the raw value when truthy, `Option.none` otherwise), in the order
the parser walks the parts. -/
def respSigs : List PyVal → List (Option PyVal)
  | [] => []
  | part :: rest =>
    match part with
    | .dict kvs =>
      if pyTruthy ((lookupKv kvs "thought").getD .none) then respSigs rest
      else
        match lookupKv kvs "text" with
        | some _ => respSigs rest
        | Option.none =>
          match lookupKv kvs "functionCall" with
          | some (.dict _) =>
            (if pyTruthy ((lookupKv kvs "thoughtSignature").getD .none)
             then some ((lookupKv kvs "thoughtSignature").getD .none)
             else Option.none) :: respSigs rest
          | _ => respSigs rest
    | _ => respSigs rest

/-- The rendered system-instruction parts of the last (rightmost) `system`
turn of a message list, if any. -/
def lastSystemRender : List Msg → Option (List Part)
  | [] => Option.none
  | m :: rest =>
    match lastSystemRender rest with
    | some ps => some ps
    | Option.none =>
      if m.role.getD "user" = "system"
      then some [Part.text (.str (renderText (m.content.getD (.str ""))))]
      else Option.none

/-! ## Theorems -/

/-- C2: `get_access_token()` fails with the not-logged-in error when the
stored record has no (truthy) refresh token; returns the cached access token
unchanged with zero network requests when one is cached and the current time
is strictly before `expires_at`; and otherwise performs exactly one refresh
request, returning the token the endpoint supplied. -/
theorem get_access_token_spec (stored : StoredTokens) (now : Int)
    (net : Except String TokenResponse) :
    (¬ strTruthy stored.refresh_token →
      get_access_token stored now net = { calls := 0, result := .error .notLoggedIn }) ∧
    (strTruthy stored.refresh_token →
      strTruthy stored.access_token → now < stored.expires_at.getD 0 →
      get_access_token stored now net =
        { calls := 0, result := .ok (stored.access_token.getD "", stored) }) ∧
    (strTruthy stored.refresh_token →
      ¬ (strTruthy stored.access_token ∧ now < stored.expires_at.getD 0) →
      (get_access_token stored now net).calls = 1 ∧
      ∀ td tok, net = .ok td → td.access_token = some tok →
        (get_access_token stored now net).result =
          .ok (tok,
            { stored with
              access_token := some tok,
              expires_at := some (now + td.expires_in.getD 3600 - 60),
              refresh_token :=
                if strTruthy td.refresh_token then td.refresh_token
                else stored.refresh_token })) := by
  refine ⟨?_, ?_, ?_⟩
  · intro h
    simp [get_access_token, h]
  · intro h1 h2 h3
    simp [get_access_token, h1, h2, h3]
  · intro h1 h2
    have hrt : ∃ s, stored.refresh_token = some s ∧ s ≠ "" := by
      cases hs : stored.refresh_token with
      | none => rw [hs] at h1; simp [strTruthy] at h1
      | some s =>
        rw [hs] at h1
        simp [strTruthy] at h1
        exact ⟨s, rfl, h1⟩
    obtain ⟨s, hs, hsne⟩ := hrt
    constructor
    · simp only [get_access_token, h1, if_true, if_neg h2, hs]
      cases net with
      | error e => simp [refresh_access_token, strTruthy, hsne]
      | ok td => cases htd : td.access_token <;> simp [refresh_access_token, strTruthy, hsne, htd]
    · intro td tok hnet htok
      simp only [get_access_token, h1, if_true, if_neg h2, hs]
      simp [refresh_access_token, strTruthy, hsne, hs, hnet, htok]

/-- Witness for C2: a record with no refresh token errors out; a fresh cache
at `now = 50 < 100` is returned with zero calls; an expired cache at
`now = 200` triggers exactly one refresh returning the endpoint's token. -/
theorem get_access_token_spec_witness :
    (get_access_token ⟨Option.none, some "tok", some 100, Option.none, Option.none⟩ 50
        (.ok ⟨some "new", some 3600, Option.none⟩) =
      { calls := 0, result := .error .notLoggedIn }) ∧
    (get_access_token ⟨some "rt", some "tok", some 100, Option.none, Option.none⟩ 50
        (.ok ⟨some "new", some 3600, Option.none⟩) =
      { calls := 0, result := .ok ("tok", ⟨some "rt", some "tok", some 100, Option.none, Option.none⟩) }) ∧
    (get_access_token ⟨some "rt", some "tok", some 100, Option.none, Option.none⟩ 200
        (.ok ⟨some "new", some 3600, Option.none⟩) =
      { calls := 1, result := .ok ("new", ⟨some "rt", some "new", some (200 + 3600 - 60), Option.none, Option.none⟩) }) := by
  refine ⟨?_, ?_, ?_⟩
  · exact (get_access_token_spec ⟨Option.none, some "tok", some 100, Option.none, Option.none⟩ 50
      (.ok ⟨some "new", some 3600, Option.none⟩)).1 (by decide)
  · exact (get_access_token_spec ⟨some "rt", some "tok", some 100, Option.none, Option.none⟩ 50
      (.ok ⟨some "new", some 3600, Option.none⟩)).2.1 (by decide) (by decide) (by decide)
  · have h := (get_access_token_spec ⟨some "rt", some "tok", some 100, Option.none, Option.none⟩ 200
      (.ok ⟨some "new", some 3600, Option.none⟩)).2.2 (by decide) (by decide)
    have h2 := h.2 ⟨some "new", some 3600, Option.none⟩ "new" rfl rfl
    have h1 := h.1
    cases hg : get_access_token ⟨some "rt", some "tok", some 100, Option.none, Option.none⟩ 200
      (.ok ⟨some "new", some 3600, Option.none⟩) with
    | mk calls result =>
      rw [hg] at h1 h2
      simp [strTruthy] at h1 h2
      simp [h1, h2]

/-- A message that the `_resolve_fn_name` scan stops at: an assistant message
with truthy `tool_calls` one of which carries the searched id. -/
def MatchesCall (tool_call_id : String) (m : Msg) : Prop :=
  m.role = some "assistant" ∧ toolCallsTruthy m ∧
    ∃ tc ∈ m.tool_calls.getD [], tc.id = some tool_call_id

/-- `findTcName` misses when no call id matches. -/
theorem findTcName_eq_none {tool_call_id : String} {tcs : List ToolCall}
    (h : ∀ tc ∈ tcs, tc.id ≠ some tool_call_id) :
    findTcName tool_call_id tcs = Option.none := by
  induction tcs with
  | nil => rfl
  | cons tc rest ih =>
    simp only [findTcName]
    rw [if_neg (h tc (by simp))]
    exact ih (fun tc' htc' => h tc' (by simp [htc']))

/-- `findTcName` returns the first match's name (defaulting to the id). -/
theorem findTcName_first {tool_call_id : String} {tcs1 tcs2 : List ToolCall}
    {tc : ToolCall} (h1 : ∀ tc' ∈ tcs1, tc'.id ≠ some tool_call_id)
    (h2 : tc.id = some tool_call_id) :
    findTcName tool_call_id (tcs1 ++ tc :: tcs2) =
      some (tc.fname.getD tool_call_id) := by
  induction tcs1 with
  | nil => simp [findTcName, h2]
  | cons tc' rest ih =>
    simp only [List.cons_append, findTcName]
    rw [if_neg (h1 tc' (by simp))]
    exact ih (fun x hx => h1 x (by simp [hx]))

/-- The scan skips a block of non-matching messages. -/
theorem resolveScan_append {tool_call_id : String} {l1 : List Msg}
    (l2 : List Msg) (h : ∀ m ∈ l1, ¬ MatchesCall tool_call_id m) :
    resolveScan tool_call_id (l1 ++ l2) = resolveScan tool_call_id l2 := by
  induction l1 with
  | nil => rfl
  | cons m rest ih =>
    have hm := h m (by simp)
    simp only [List.cons_append, resolveScan]
    by_cases hc : m.role = some "assistant" ∧ toolCallsTruthy m
    · rw [if_pos hc]
      have : findTcName tool_call_id (m.tool_calls.getD []) = Option.none := by
        apply findTcName_eq_none
        intro tc htc heq
        exact hm ⟨hc.1, hc.2, tc, htc, heq⟩
      rw [this]
      exact ih (fun x hx => h x (by simp [hx]))
    · rw [if_neg hc]
      exact ih (fun x hx => h x (by simp [hx]))

/-- C10: with no explicit name on a tool-result turn, the function name is
resolved by scanning assistant turns backward for the call whose id equals
the turn's `tool_call_id`: (a) when no assistant turn in the list carries a
matching call id, the `tool_call_id` itself is returned (total, no error);
(b) the most recent matching assistant turn wins, yielding its first matching
call's name (defaulting to the id when the name key is absent); (c) the
translator uses exactly this resolution for the wire `functionResponse` name
whenever the turn's `name` is falsy. -/
theorem resolve_fn_name_spec (messages : List Msg) (tool_call_id : String) :
    ((∀ m ∈ messages, ¬ MatchesCall tool_call_id m) →
      resolve_fn_name messages tool_call_id = tool_call_id) ∧
    (∀ pre msg post, messages = pre ++ msg :: post →
      msg.role = some "assistant" → toolCallsTruthy msg →
      ∀ tcs1 tc tcs2, msg.tool_calls.getD [] = tcs1 ++ tc :: tcs2 →
      (∀ tc' ∈ tcs1, tc'.id ≠ some tool_call_id) → tc.id = some tool_call_id →
      (∀ m ∈ post, ¬ MatchesCall tool_call_id m) →
      resolve_fn_name messages tool_call_id = tc.fname.getD tool_call_id) ∧
    (∀ st msg st', msg.role = some "tool" → ¬ strTruthy msg.name →
      translateMsg messages st msg = some st' →
      ∃ v, st'.contents = st.contents ++
        [⟨"user", [Part.functionResponse
          ⟨resolve_fn_name messages (msg.tool_call_id.getD ""),
           msg.tool_call_id.getD "", v⟩]⟩]) := by
  refine ⟨?_, ?_, ?_⟩
  · intro h
    unfold resolve_fn_name
    have : messages.reverse = messages.reverse ++ [] := by simp
    rw [this, resolveScan_append [] (fun m hm => h m (by simpa using hm))]
    rfl
  · intro pre msg post hsplit hrole htruthy tcs1 tc tcs2 htcs h1 h2 hpost
    unfold resolve_fn_name
    rw [hsplit]
    have hrev : (pre ++ msg :: post).reverse = post.reverse ++ msg :: pre.reverse := by
      simp
    rw [hrev, resolveScan_append (msg :: pre.reverse)
      (fun m hm => hpost m (by simpa using hm))]
    simp only [resolveScan]
    rw [if_pos ⟨hrole, htruthy⟩, htcs, findTcName_first h1 h2]
  · intro st msg st' hrole hname htrans
    have hname0 : msg.name.getD "" = "" := by
      cases hn : msg.name with
      | none => rfl
      | some s =>
        rw [hn] at hname
        simp [strTruthy] at hname
        simp [hname]
    unfold translateMsg at htrans
    rw [hrole] at htrans
    simp only [Option.getD_some] at htrans
    rw [if_neg (by simp)] at htrans
    rw [if_neg (by simp)] at htrans
    simp only [if_true, hname0, if_pos, Option.some.injEq] at htrans
    subst htrans
    exact ⟨_, rfl⟩

/-- Witness for C10 at concrete inputs: an empty conversation falls back to
the id; the later of two matching assistant turns wins; a nameless tool turn
gets the resolved name on its wire part. -/
theorem resolve_fn_name_spec_witness :
    (resolve_fn_name [] "call_9" = "call_9") ∧
    (resolve_fn_name
        [⟨some "assistant", Option.none,
            some [⟨some "call_1", some "older", Option.none, Option.none⟩],
            Option.none, Option.none⟩,
         ⟨some "assistant", Option.none,
            some [⟨some "call_1", some "newer", Option.none, Option.none⟩],
            Option.none, Option.none⟩] "call_1" = "newer") ∧
    (∃ st' v, translateMsg [] ⟨Option.none, []⟩
        ⟨some "tool", some (.str "out"), Option.none, some "call_7", Option.none⟩ = some st' ∧
      st'.contents =
        [⟨"user", [Part.functionResponse
          ⟨resolve_fn_name [] "call_7", "call_7", v⟩]⟩]) := by
  refine ⟨?_, ?_, ?_⟩
  · exact (resolve_fn_name_spec [] "call_9").1 (by intro m hm; simp at hm)
  · exact (resolve_fn_name_spec _ "call_1").2.1
      [⟨some "assistant", Option.none,
          some [⟨some "call_1", some "older", Option.none, Option.none⟩],
          Option.none, Option.none⟩]
      ⟨some "assistant", Option.none,
          some [⟨some "call_1", some "newer", Option.none, Option.none⟩],
          Option.none, Option.none⟩
      [] rfl rfl (by decide) [] _ [] rfl (by intro x hx; simp at hx) rfl
      (by intro m hm; simp at hm)
  · obtain ⟨v, hv⟩ := (resolve_fn_name_spec [] "call_7").2.2 ⟨Option.none, []⟩
      ⟨some "tool", some (.str "out"), Option.none, some "call_7", Option.none⟩
      ⟨Option.none, [⟨"user", [Part.functionResponse
        ⟨"call_7", "call_7", PyVal.dict [("result", PyVal.str "out")]⟩]⟩]⟩
      rfl (by decide) rfl
    exact ⟨_, v, rfl, hv⟩

/-- C9: `_save_stored` is not atomic in the write-then-replace sense.  It
rewrites the credential file in place (`Path.write_text` truncates, then
writes), so while a save of a new record runs, a concurrent reader can
observe the empty file — a state that is neither the previous record nor the
complete new one. -/
theorem save_stored_not_atomic :
    ¬ AtomicPersist (save_stored_ops "new-record") (some "old-record") "new-record" := by
  intro h
  have hmem : some "" ∈
      observableStates TOKEN_FILE (fun _ => some "new-record") (some "old-record")
        (save_stored_ops "new-record") := by
    simp [save_stored_ops, observableStates, fsStep, TOKEN_FILE, TOKEN_DIR]
  rcases h (some "") hmem with h1 | h2
  · simp at h1
  · simp at h2

/-- C5 counterexample: a status the claim says is "propagated to the caller
immediately" (here 500) is in fact recorded by the `RequestException` handler
(`raise_for_status` raises `HTTPError`, a `RequestException` subclass) and
the dispatcher advances to the next endpoint, whose success it returns. -/
theorem dispatch_500_not_propagated :
    runEndpoint ⟨"E1", .resp 500 "boom" Option.none, .timeout⟩ =
      .skip ("Error on " ++ "E1" ++ ": " ++ httpErrorMsg 500) ∧
    chatDispatch
      [⟨"E1", .resp 500 "boom" Option.none, .timeout⟩,
       ⟨"E2", .resp 200 "ok"
          (some (.dict [("candidates", .list [.dict [("content",
            .dict [("parts", .list [.dict [("text", .str "hi")]])])]])])),
          .timeout⟩] Option.none =
      .ok ⟨some "assistant", some (.str "hi"), Option.none, Option.none, Option.none⟩
         ⟨0, 0, 0, 0⟩ := by
  constructor
  · rfl
  · rfl

/-- C5 (amended): on a 401 first response the dispatcher re-fetches the
access token and retries the same endpoint exactly once — a successful retry
is returned, a retry that fails again (for example another 401) only records
the reason and the dispatcher moves to the next endpoint; and any other
non-success status outside 429/403/400/404 is likewise recorded (as the
`HTTPError` text the `RequestException` handler catches) and the dispatcher
advances instead of propagating. -/
theorem dispatch_401_retry_and_other_status (e : EndpointRun)
    (rest : List EndpointRun) (le : Option String) :
    (∀ t b t2 b2, e.first = .resp 401 t b → e.retry = .resp 401 t2 b2 →
      chatDispatch (e :: rest) le =
        chatDispatch rest (some ("Error on " ++ e.endpoint ++ ": " ++ httpErrorMsg 401))) ∧
    (∀ t b t2 data d2 m u, e.first = .resp 401 t b →
      e.retry = .resp 200 t2 (some data) →
      unwrapResponse data = some d2 →
      google_to_openai_message d2 = some m →
      extract_usage d2 = some u →
      chatDispatch (e :: rest) le = .ok m u) ∧
    (∀ s t b, e.first = .resp s t b →
      s ≠ 401 → s ≠ 429 → s ≠ 403 → s ≠ 400 → s ≠ 404 → 400 ≤ s →
      chatDispatch (e :: rest) le =
        chatDispatch rest (some ("Error on " ++ e.endpoint ++ ": " ++ httpErrorMsg s))) := by
  refine ⟨?_, ?_, ?_⟩
  · intro t b t2 b2 hf hr
    simp only [chatDispatch, runEndpoint, hf, hr, afterPost, checkResp]
    norm_num
  · intro t b t2 data d2 m u hf hr hu hm hus
    simp only [chatDispatch, runEndpoint, hf, hr, afterPost, checkResp]
    norm_num
    simp [hu, hm, hus]
  · intro s t b hf h401 h429 h403 h400 h404 hge
    simp only [chatDispatch, runEndpoint, hf, checkResp]
    rw [if_neg h401, if_neg h429, if_neg h403,
        if_neg (by simp [h400, h404]), if_pos hge]

/-- Witness for the amended C5: a 401 endpoint whose single retry 401s again
is abandoned (exhaustion cites the HTTPError), a 401 endpoint whose retry
succeeds returns that success, and a 503 is recorded and skipped. -/
theorem dispatch_401_retry_and_other_status_witness :
    (chatDispatch [⟨"E", .resp 401 "t" Option.none, .resp 401 "t2" Option.none⟩] Option.none =
      chatDispatch [] (some ("Error on " ++ "E" ++ ": " ++ httpErrorMsg 401))) ∧
    (chatDispatch [⟨"E", .resp 401 "t" Option.none,
        .resp 200 "ok" (some (.dict [("candidates", .list [.dict [("content",
          .dict [("parts", .list [.dict [("text", .str "hi")]])])]])]))⟩] Option.none =
      .ok ⟨some "assistant", some (.str "hi"), Option.none, Option.none, Option.none⟩
         ⟨0, 0, 0, 0⟩) ∧
    (chatDispatch [⟨"E", .resp 503 "t" Option.none, .timeout⟩] Option.none =
      chatDispatch [] (some ("Error on " ++ "E" ++ ": " ++ httpErrorMsg 503))) := by
  refine ⟨?_, ?_, ?_⟩
  · exact (dispatch_401_retry_and_other_status
      ⟨"E", .resp 401 "t" Option.none, .resp 401 "t2" Option.none⟩ [] Option.none).1
      "t" Option.none "t2" Option.none rfl rfl
  · exact (dispatch_401_retry_and_other_status
      ⟨"E", .resp 401 "t" Option.none,
        .resp 200 "ok" (some (.dict [("candidates", .list [.dict [("content",
          .dict [("parts", .list [.dict [("text", .str "hi")]])])]])]))⟩ [] Option.none).2.1
      "t" Option.none "ok" _ _ _ _ rfl rfl rfl rfl rfl
  · exact (dispatch_401_retry_and_other_status
      ⟨"E", .resp 503 "t" Option.none, .timeout⟩ [] Option.none).2.2
      503 "t" Option.none rfl (by decide) (by decide) (by decide) (by decide)
      (by decide) (by decide)

/-- A 429 or a 403 first response makes the dispatcher record a reason and
advance, without retrying the endpoint. -/
theorem runEndpoint_skip_429_403 {e : EndpointRun} {s : Nat} {t : String}
    {b : Option PyVal} (hf : e.first = .resp s t b) (hs : s = 429 ∨ s = 403) :
    ∃ err, runEndpoint e = .skip err := by
  rcases hs with h | h <;> subst h <;>
    simp [runEndpoint, hf, checkResp]

/-- C3: with an ordered endpoint list whose every earlier endpoint answers
429 or 403 and whose final endpoint answers 200 with a parseable body, the
dispatcher skips each failing endpoint (no retry of it), returns the final
endpoint's parsed success, and never reaches the all-endpoints-failed
error. -/
theorem dispatch_failover_success (pre : List EndpointRun) (last : EndpointRun)
    (t : String) (data d2 : PyVal) (m : Msg) (u : Usage) (le : Option String) :
    (∀ e ∈ pre, ∃ s tx b, e.first = HttpOutcome.resp s tx b ∧ (s = 429 ∨ s = 403)) →
    last.first = .resp 200 t (some data) →
    unwrapResponse data = some d2 →
    google_to_openai_message d2 = some m →
    extract_usage d2 = some u →
    chatDispatch (pre ++ [last]) le = .ok m u := by
  intro hpre hlast hun hmsg hus
  induction pre generalizing le with
  | nil =>
    simp only [List.nil_append, chatDispatch, runEndpoint, hlast, checkResp]
    norm_num
    simp [hun, hmsg, hus]
  | cons e pre' ih =>
    obtain ⟨s, tx, b, hf, hs⟩ := hpre e (by simp)
    obtain ⟨err, herr⟩ := runEndpoint_skip_429_403 hf hs
    simp only [List.cons_append, chatDispatch, herr]
    exact ih (some err) (fun x hx => hpre x (List.mem_cons_of_mem _ hx))

/-- Witness for C3: two rate-limited endpoints followed by a 200 return the
parsed success. -/
theorem dispatch_failover_success_witness :
    chatDispatch
      [⟨"E1", .resp 429 "slow down" Option.none, .timeout⟩,
       ⟨"E2", .resp 403 "denied" Option.none, .timeout⟩,
       ⟨"E3", .resp 200 "ok"
          (some (.dict [("candidates", .list [.dict [("content",
            .dict [("parts", .list [.dict [("text", .str "hi")]])])]])])),
          .timeout⟩] Option.none =
      .ok ⟨some "assistant", some (.str "hi"), Option.none, Option.none, Option.none⟩
         ⟨0, 0, 0, 0⟩ := by
  have h := dispatch_failover_success
    [⟨"E1", .resp 429 "slow down" Option.none, .timeout⟩,
     ⟨"E2", .resp 403 "denied" Option.none, .timeout⟩]
    ⟨"E3", .resp 200 "ok"
        (some (.dict [("candidates", .list [.dict [("content",
          .dict [("parts", .list [.dict [("text", .str "hi")]])])]])])),
        .timeout⟩
    "ok"
    (.dict [("candidates", .list [.dict [("content",
      .dict [("parts", .list [.dict [("text", .str "hi")]])])]])])
    (.dict [("candidates", .list [.dict [("content",
      .dict [("parts", .list [.dict [("text", .str "hi")]])])]])])
    ⟨some "assistant", some (.str "hi"), Option.none, Option.none, Option.none⟩
    ⟨0, 0, 0, 0⟩ Option.none
    (by
      intro e he
      simp at he
      rcases he with h1 | h2
      · exact ⟨429, "slow down", Option.none, by simp [h1], Or.inl rfl⟩
      · exact ⟨403, "denied", Option.none, by simp [h2], Or.inr rfl⟩)
    rfl rfl rfl rfl
  simpa using h

/-- C4: when every endpoint fails (all 404 here), the caller receives exactly
one aggregated `RuntimeError` whose message cites the last endpoint's
recorded failure — its status code and the first 200 characters of its
response body. -/
theorem dispatch_exhaustion_message (pre : List EndpointRun) (last : EndpointRun)
    (t : String) (b : Option PyVal) (le : Option String) :
    (∀ e ∈ pre, ∃ tx bb, e.first = HttpOutcome.resp 404 tx bb) →
    last.first = .resp 404 t b →
    chatDispatch (pre ++ [last]) le =
      .exhausted ("All Antigravity endpoints failed. Last error: " ++
        (toString (404 : Nat) ++ " from " ++ last.endpoint ++ ": " ++ t.take 200)) := by
  intro hpre hlast
  induction pre generalizing le with
  | nil =>
    simp only [List.nil_append, chatDispatch, runEndpoint, hlast, checkResp]
    norm_num
    rfl
  | cons e pre' ih =>
    obtain ⟨tx, bb, hf⟩ := hpre e (by simp)
    have herr : runEndpoint e = .skip (toString (404 : Nat) ++ " from " ++ e.endpoint ++ ": " ++ tx.take 200) := by
      simp [runEndpoint, hf, checkResp]
    simp only [List.cons_append, chatDispatch, herr]
    exact ih _ (fun x hx => hpre x (List.mem_cons_of_mem _ hx))

/-- Witness for C4: two endpoints both answering 404; the single aggregated
error cites the second endpoint's 404 and its (truncated) body. -/
theorem dispatch_exhaustion_message_witness :
    chatDispatch
      [⟨"E1", .resp 404 "missing one" Option.none, .timeout⟩,
       ⟨"E2", .resp 404 "missing two" Option.none, .timeout⟩] Option.none =
      .exhausted ("All Antigravity endpoints failed. Last error: " ++
        (toString (404 : Nat) ++ " from " ++ "E2" ++ ": " ++ "missing two".take 200)) := by
  have h := dispatch_exhaustion_message
    [⟨"E1", .resp 404 "missing one" Option.none, .timeout⟩]
    ⟨"E2", .resp 404 "missing two" Option.none, .timeout⟩
    "missing two" Option.none Option.none
    (by
      intro e he
      simp at he
      exact ⟨"missing one", Option.none, by simp [he]⟩)
    rfl
  simpa using h

/-- Translating a `system` turn only overwrites the system instruction. -/
theorem translateMsg_system {msgs0 : List Msg} {st : TransState} {m : Msg}
    {st1 : TransState} (h : translateMsg msgs0 st m = some st1)
    (hr : m.role.getD "user" = "system") :
    st1.system_instruction =
      some [Part.text (.str (renderText (m.content.getD (.str ""))))] ∧
    st1.contents = st.contents := by
  unfold translateMsg at h
  rw [hr, if_pos rfl] at h
  cases h
  exact ⟨rfl, rfl⟩

/-- Translating a non-`system` turn keeps the system instruction and appends
exactly one wire content. -/
theorem translateMsg_nonsystem {msgs0 : List Msg} {st : TransState} {m : Msg}
    {st1 : TransState} (h : translateMsg msgs0 st m = some st1)
    (hr : ¬ m.role.getD "user" = "system") :
    st1.system_instruction = st.system_instruction ∧
    ∃ wc, st1.contents = st.contents ++ [wc] := by
  unfold translateMsg at h
  rw [if_neg hr] at h
  by_cases ha : m.role.getD "user" = "assistant" ∧ toolCallsTruthy m
  · rw [if_pos ha] at h
    cases h
    exact ⟨rfl, _, rfl⟩
  · rw [if_neg ha] at h
    by_cases ht : m.role.getD "user" = "tool"
    · rw [if_pos ht] at h
      cases h
      exact ⟨rfl, _, rfl⟩
    · rw [if_neg ht] at h
      repeat' split at h
      all_goals try (cases h; exact ⟨rfl, _, rfl⟩)
      all_goals
        (generalize hp : partsOfItems _ = pp at h
         cases pp with
         | none => cases h
         | some parts => cases h; exact ⟨rfl, _, rfl⟩)

/-- Invariant of the translation fold: the final system instruction is the
last system turn's rendering (or the initial one when there is none), and
every non-system turn contributes exactly one wire content. -/
theorem translate_fold_system (msgs0 : List Msg) :
    ∀ (msgs : List Msg) (st st' : TransState),
    msgs.foldlM (translateMsg msgs0) st = some st' →
    st'.system_instruction =
      (match lastSystemRender msgs with
       | some ps => some ps
       | Option.none => st.system_instruction) ∧
    st'.contents.length =
      st.contents.length + (msgs.filter (fun m => m.role.getD "user" != "system")).length := by
  intro msgs
  induction msgs with
  | nil =>
    intro st st' h
    simp only [List.foldlM_nil, Option.pure_def, Option.some.injEq] at h
    subst h
    simp [lastSystemRender]
  | cons m rest ih =>
    intro st st' h
    simp only [List.foldlM_cons, Option.bind_eq_bind, Option.bind_eq_some] at h
    obtain ⟨st1, h1, h2⟩ := h
    obtain ⟨ihs, ihc⟩ := ih st1 st' h2
    by_cases hr : m.role.getD "user" = "system"
    · obtain ⟨hsys1, hcon1⟩ := translateMsg_system h1 hr
      constructor
      · rw [ihs]
        simp only [lastSystemRender]
        cases hls : lastSystemRender rest <;> simp [hls, hr, hsys1]
      · rw [ihc, hcon1]
        simp [List.filter_cons, hr]
    · obtain ⟨hkeep, wc, happ⟩ := translateMsg_nonsystem h1 hr
      constructor
      · rw [ihs, hkeep]
        simp only [lastSystemRender]
        cases hls : lastSystemRender rest <;> simp [hls, hr]
      · rw [ihc, happ]
        have : (m.role.getD "user" != "system") = true := by
          simpa using hr
        simp [List.filter_cons, this]
        omega

/-- C6 counterexample: with two `system` turns (`"A"` then `"B"`), the
translated body's system instruction is only the last turn's `"B"` — and no
in-order concatenation of `"A"` and `"B"` (with any separator) equals `"B"`,
so the claimed concatenation of all system contents is not what is placed in
the field. -/
theorem openai_to_google_system_overwrite_cex :
    openai_to_google
      [⟨some "system", some (.str "A"), Option.none, Option.none, Option.none⟩,
       ⟨some "system", some (.str "B"), Option.none, Option.none, Option.none⟩,
       ⟨some "user", some (.str "hi"), Option.none, Option.none, Option.none⟩] =
      some ⟨[⟨"user", [Part.text (.str "hi")]⟩], some [Part.text (.str "B")]⟩ ∧
    ∀ sep : String, "B" ≠ "A" ++ sep ++ "B" := by
  constructor
  · rfl
  · intro sep h
    have hl := congrArg String.length h
    simp [String.length_append] at hl
    obtain ⟨h1, _⟩ := hl
    have hA : ("A" : String).length = 1 := rfl
    rw [hA] at h1
    cases h1

/-- C6 (amended): translation removes every `system` turn from the wire
contents (each non-system turn yields exactly one wire content, system turns
none), and the dedicated system-instruction field holds the rendered content
of the LAST system turn only — earlier system turns are discarded, not
concatenated; the field is absent when there is no system turn. -/
theorem openai_to_google_system_last (msgs : List Msg) (body : RequestBody) :
    openai_to_google msgs = some body →
    body.systemInstruction =
      (match lastSystemRender msgs with
       | some ps => some ps
       | Option.none => Option.none) ∧
    body.contents.length =
      (msgs.filter (fun m => m.role.getD "user" != "system")).length := by
  intro h
  unfold openai_to_google at h
  cases hf : msgs.foldlM (translateMsg msgs) ⟨Option.none, []⟩ with
  | none => rw [hf] at h; cases h
  | some st =>
    rw [hf] at h
    obtain ⟨hs, hc⟩ := translate_fold_system msgs msgs ⟨Option.none, []⟩ st hf
    cases h
    exact ⟨hs, by simpa using hc⟩

/-- Witness for the amended C6: the three-turn conversation above yields the
last system turn's text as the instruction and one wire content for the one
non-system turn. -/
theorem openai_to_google_system_last_witness :
    (some [Part.text (.str "B")] : Option (List Part)) =
      (match lastSystemRender
        [⟨some "system", some (.str "A"), Option.none, Option.none, Option.none⟩,
         ⟨some "system", some (.str "B"), Option.none, Option.none, Option.none⟩,
         ⟨some "user", some (.str "hi"), Option.none, Option.none, Option.none⟩] with
       | some ps => some ps
       | Option.none => Option.none) ∧
    (1 : Nat) =
      ([⟨some "system", some (.str "A"), Option.none, Option.none, Option.none⟩,
        ⟨some "system", some (.str "B"), Option.none, Option.none, Option.none⟩,
        (⟨some "user", some (.str "hi"), Option.none, Option.none, Option.none⟩ : Msg)].filter
          (fun m => m.role.getD "user" != "system")).length := by
  have h := openai_to_google_system_last
    [⟨some "system", some (.str "A"), Option.none, Option.none, Option.none⟩,
     ⟨some "system", some (.str "B"), Option.none, Option.none, Option.none⟩,
     ⟨some "user", some (.str "hi"), Option.none, Option.none, Option.none⟩]
    ⟨[⟨"user", [Part.text (.str "hi")]⟩], some [Part.text (.str "B")]⟩ rfl
  exact ⟨h.1, h.2⟩

/-- A successful parse yielding an object must have started at a `{`. -/
theorem parseVal_dict_head {fuel : Nat} {l : List Char} {kvs : List (String × PyVal)}
    {r : List Char} (h : parseVal fuel l = some (PyVal.dict kvs, r)) :
    ∃ rest, skipWs l = '\x7b' :: rest := by
  match fuel with
  | 0 => cases h
  | fuel + 1 =>
    unfold parseVal at h
    cases hsw : skipWs l with
    | nil => rw [hsw] at h; cases h
    | cons c rest =>
      rw [hsw] at h
      refine ⟨rest, ?_⟩
      repeat' split at h
      all_goals simp_all [Option.map_eq_some']

/-- `json.dumps` of a list starts with `[`, so `json.loads` of it can never
be an object. -/
theorem parse_dumps_list_not_dict (xs : List PyVal) (kvs : List (String × PyVal)) :
    pyParseJson (jsonDumps (PyVal.list xs)) ≠ some (PyVal.dict kvs) := by
  intro h
  unfold pyParseJson at h
  cases hp : parseVal ((jsonDumps (PyVal.list xs)).length + 1) (jsonDumps (PyVal.list xs)).data with
  | none => rw [hp] at h; cases h
  | some pr =>
    rw [hp] at h
    obtain ⟨v, r⟩ := pr
    by_cases he : (skipWs r).isEmpty
    · simp only [he, if_true, Option.some.injEq] at h
      subst h
      obtain ⟨rest, hrest⟩ := parseVal_dict_head hp
      have hdata : (jsonDumps (PyVal.list xs)).data =
          '[' :: ((", ".intercalate (jsonDumpsList xs)) ++ "]").data := by
        show ("[" ++ ((", ".intercalate (jsonDumpsList xs)) ++ "]")).data = _
        rw [String.data_append]
        rfl
      rw [hdata] at hrest
      have : skipWs ('[' :: ((", ".intercalate (jsonDumpsList xs)) ++ "]").data) =
          '[' :: ((", ".intercalate (jsonDumpsList xs)) ++ "]").data := by
        simp [skipWs, isJsonWs]
      rw [this] at hrest
      cases hrest
    · simp only [he, if_false, Bool.false_eq_true, reduceIte] at h
      cases h

/-- C8: a tool-result turn whose payload is a plain string that does not
parse to a JSON object, or a list, is translated into a `functionResponse`
part whose `response` payload is an object wrapping a value under the single
key `"result"` — never a bare scalar or array. -/
theorem tool_result_payload_wrapped (messages : List Msg) (st : TransState)
    (msg : Msg) (st' : TransState) :
    msg.role = some "tool" →
    ((∃ s, msg.content = some (.str s) ∧
        ∀ kvs, pyParseJson s ≠ some (PyVal.dict kvs)) ∨
     (∃ xs, msg.content = some (.list xs))) →
    translateMsg messages st msg = some st' →
    ∃ name id v,
      st'.contents = st.contents ++
        [⟨"user", [Part.functionResponse ⟨name, id, PyVal.dict [("result", v)]⟩]⟩] := by
  intro hrole hpayload htrans
  unfold translateMsg at htrans
  rw [hrole] at htrans
  simp only [Option.getD_some] at htrans
  rw [if_neg (by simp)] at htrans
  rw [if_neg (by simp)] at htrans
  simp only [if_true] at htrans
  rcases hpayload with ⟨s, hc, hnd⟩ | ⟨xs, hc⟩
  · rw [hc] at htrans
    simp only [Option.getD_some] at htrans
    cases hp : pyParseJson (renderText (PyVal.str s)) with
    | none =>
      rw [hp] at htrans
      cases htrans
      exact ⟨_, _, _, rfl⟩
    | some v =>
      rw [hp] at htrans
      cases v with
      | dict kvs =>
        exact absurd hp (by simpa [renderText] using hnd kvs)
      | none => cases htrans; exact ⟨_, _, _, rfl⟩
      | bool b => cases htrans; exact ⟨_, _, _, rfl⟩
      | int n => cases htrans; exact ⟨_, _, _, rfl⟩
      | str t => cases htrans; exact ⟨_, _, _, rfl⟩
      | list ys => cases htrans; exact ⟨_, _, _, rfl⟩
  · rw [hc] at htrans
    simp only [Option.getD_some] at htrans
    cases hp : pyParseJson (renderText (PyVal.list xs)) with
    | none =>
      rw [hp] at htrans
      cases htrans
      exact ⟨_, _, _, rfl⟩
    | some v =>
      rw [hp] at htrans
      cases v with
      | dict kvs =>
        exact absurd hp (by simpa [renderText] using parse_dumps_list_not_dict xs kvs)
      | none => cases htrans; exact ⟨_, _, _, rfl⟩
      | bool b => cases htrans; exact ⟨_, _, _, rfl⟩
      | int n => cases htrans; exact ⟨_, _, _, rfl⟩
      | str t => cases htrans; exact ⟨_, _, _, rfl⟩
      | list ys => cases htrans; exact ⟨_, _, _, rfl⟩

/-- Witness for C8: a list payload `[1, 2]` round-trips through
`json.dumps`/`json.loads` to a non-object and is wrapped under `"result"`. -/
theorem tool_result_payload_wrapped_witness :
    ∃ name id v,
      (⟨Option.none,
        [⟨"user", [Part.functionResponse
          ⟨"c1", "c1", PyVal.dict [("result", PyVal.list [PyVal.int 1, PyVal.int 2])]⟩]⟩]⟩ :
          TransState).contents =
        ([] : List WireContent) ++
          [⟨"user", [Part.functionResponse ⟨name, id, PyVal.dict [("result", v)]⟩]⟩] := by
  exact tool_result_payload_wrapped [] ⟨Option.none, []⟩
    ⟨some "tool", some (.list [PyVal.int 1, PyVal.int 2]), Option.none, some "c1", Option.none⟩
    ⟨Option.none,
      [⟨"user", [Part.functionResponse
        ⟨"c1", "c1", PyVal.dict [("result", PyVal.list [PyVal.int 1, PyVal.int 2])]⟩]⟩]⟩
    rfl (Or.inr ⟨[PyVal.int 1, PyVal.int 2], rfl⟩) rfl

/-- `respSigs` distributes over the head of the parts list. -/
theorem respSigs_cons (p : PyVal) (rest : List PyVal) :
    respSigs (p :: rest) = respSigs [p] ++ respSigs rest := by
  cases p <;> simp only [respSigs] <;> try rfl
  repeat' split
  all_goals rfl

/-- One `partStep` appends the part's signature entry (when the part is a
surviving function call) to the collected tool calls, and every collected
signature is a truthy raw value. -/
theorem partStep_out {st : List PyVal × List ToolCall × Nat} {part : PyVal}
    {st1 : List PyVal × List ToolCall × Nat} (h : partStep st part = some st1) :
    st1.2.1.map ToolCall.thought_signature =
      st.2.1.map ToolCall.thought_signature ++ respSigs [part] ∧
    ∀ tc ∈ st1.2.1, tc ∈ st.2.1 ∨ ∀ v, tc.thought_signature = some v → pyTruthy v := by
  unfold partStep at h
  repeat' split at h
  all_goals cases h
  all_goals constructor
  all_goals try (simp [respSigs, *]; done)
  all_goals intro tc htc
  all_goals try (exact Or.inl htc)
  all_goals
    (rcases List.mem_append.mp htc with h' | h'
     · exact Or.inl h'
     · simp only [List.mem_singleton] at h'
       subst h'
       right
       intro v hv
       split at hv
       · cases hv; assumption
       · cases hv)

/-- Folding `partStep` over a parts list collects exactly the signature
entries of `respSigs`, all truthy. -/
theorem partsFold_sigs (parts : List PyVal) :
    ∀ (st out : List PyVal × List ToolCall × Nat),
    List.foldlM partStep st parts = some out →
    out.2.1.map ToolCall.thought_signature =
      st.2.1.map ToolCall.thought_signature ++ respSigs parts ∧
    ∀ tc ∈ out.2.1, tc ∈ st.2.1 ∨ ∀ v, tc.thought_signature = some v → pyTruthy v := by
  induction parts with
  | nil =>
    intro st out h
    simp only [List.foldlM_nil, Option.pure_def, Option.some.injEq] at h
    subst h
    exact ⟨by simp [respSigs], fun tc htc => Or.inl htc⟩
  | cons part rest ih =>
    intro st out h
    simp only [List.foldlM_cons, Option.bind_eq_bind, Option.bind_eq_some] at h
    obtain ⟨st1, h1, h2⟩ := h
    obtain ⟨m1, t1⟩ := partStep_out h1
    obtain ⟨m2, t2⟩ := ih st1 out h2
    constructor
    · rw [m2, m1, List.append_assoc, ← respSigs_cons]
    · intro tc htc
      rcases t2 tc htc with hmem | htr
      · rcases t1 tc hmem with hmem' | htr'
        · exact Or.inl hmem'
        · exact Or.inr htr'
      · exact Or.inr htr

/-- `fcSigs` distributes over append. -/
theorem fcSigs_append (xs ys : List Part) :
    fcSigs (xs ++ ys) = fcSigs xs ++ fcSigs ys := by
  induction xs with
  | nil => rfl
  | cons p rest ih => cases p <;> simp [fcSigs, ih]

/-- The function-call parts rebuilt from a list of tool calls carry exactly
the calls' truthy signatures. -/
theorem fcSigs_enumFrom (tcs : List ToolCall) :
    ∀ start : Nat,
    fcSigs ((tcs.enumFrom start).map fun p => fcPartOfToolCall p.1 p.2) =
      tcs.map (fun tc =>
        match tc.thought_signature with
        | some ts => if pyTruthy ts then some ts else Option.none
        | Option.none => Option.none) := by
  induction tcs with
  | nil => intro start; rfl
  | cons tc rest ih =>
    intro start
    have hstep : fcSigs (((tc :: rest).enumFrom start).map fun p => fcPartOfToolCall p.1 p.2) =
        (match tc.thought_signature with
         | some ts => if pyTruthy ts then some ts else Option.none
         | Option.none => Option.none) ::
          fcSigs ((rest.enumFrom (start + 1)).map fun p => fcPartOfToolCall p.1 p.2) := rfl
    rw [hstep, ih (start + 1)]
    rfl

/-- Truthy-or-absent signatures pass through the rebuild normalization
untouched. -/
theorem sig_normal_id (tcs : List ToolCall)
    (h : ∀ tc ∈ tcs, ∀ v, tc.thought_signature = some v → pyTruthy v) :
    tcs.map (fun tc =>
        match tc.thought_signature with
        | some ts => if pyTruthy ts then some ts else Option.none
        | Option.none => Option.none) =
      tcs.map ToolCall.thought_signature := by
  induction tcs with
  | nil => rfl
  | cons tc rest ih =>
    simp only [List.map_cons]
    have h1 : (match tc.thought_signature with
        | some ts => if pyTruthy ts then some ts else Option.none
        | Option.none => Option.none) = tc.thought_signature := by
      cases hts : tc.thought_signature with
      | none => rfl
      | some v =>
        have htr := h tc (by simp) v hts
        simp [htr]
    rw [h1, ih (fun x hx v hv => h x (by simp [hx]) v hv)]

/-- C1: parsing a response stores each function-call part's truthy
`thoughtSignature` on the corresponding tool-call record, and translating the
parsed assistant message back to the wire re-attaches every stored signature
unmodified to its function-call part: the rebuilt signature sequence equals
the response's signature sequence value-for-value (so byte-for-byte for
string tokens). -/
theorem thought_signature_roundtrip (response : PyVal) (msg : Msg)
    (messages : List Msg) (st st' : TransState) :
    google_to_openai_message response = some msg →
    toolCallsTruthy msg →
    translateMsg messages st msg = some st' →
    ∃ wc partList,
      st'.contents = st.contents ++ [wc] ∧
      responseParts response = some partList ∧
      fcSigs wc.parts = respSigs partList ∧
      fcSigs wc.parts = (msg.tool_calls.getD []).map ToolCall.thought_signature := by
  intro hparse htruthy htrans
  cases response with
  | none => simp [google_to_openai_message] at hparse
  | bool b => simp [google_to_openai_message] at hparse
  | int n => simp [google_to_openai_message] at hparse
  | str s => simp [google_to_openai_message] at hparse
  | list xs => simp [google_to_openai_message] at hparse
  | dict rkvs =>
    simp only [google_to_openai_message] at hparse
    by_cases hcand : pyTruthy ((lookupKv rkvs "candidates").getD (.list []))
    · rw [if_neg (by simp [hcand])] at hparse
      cases hrp : responsePartsOf ((lookupKv rkvs "candidates").getD (.list [])) with
      | none => simp [hrp] at hparse
      | some partList =>
        simp only [hrp] at hparse
        cases hpf : partsFold partList with
        | none => simp [hpf] at hparse
        | some triple =>
          obtain ⟨textVals, toolCalls, k⟩ := triple
          simp only [hpf] at hparse
          cases hcv : (match textVals with
              | [] => some PyVal.none
              | vs => (joinTextParts vs).map PyVal.str) with
          | none => simp [hcv] at hparse
          | some contentVal =>
            simp only [hcv, Option.some.injEq] at hparse
            subst hparse
            by_cases hemp : toolCalls.isEmpty
            · rw [if_pos hemp] at htruthy
              simp [toolCallsTruthy] at htruthy
            · rw [if_neg hemp] at htruthy
              obtain ⟨msig, tsig⟩ := partsFold_sigs partList ([], [], 0) _ hpf
              unfold translateMsg at htrans
              simp only [Option.getD_some, if_neg (by decide : ¬ ("assistant" : String) = "system")] at htrans
              rw [if_pos ⟨by simp, by simp [toolCallsTruthy, if_neg hemp, hemp]⟩] at htrans
              simp only [Option.some.injEq] at htrans
              subst htrans
              refine ⟨_, partList, rfl, by simp [responseParts, hrp], ?_, ?_⟩
              · rw [if_neg hemp]
                simp only [Option.getD_some]
                rw [fcSigs_append]
                have h0 : fcSigs (if pyTruthy (contentVal) then [Part.text contentVal] else []) = [] := by
                  split <;> rfl
                rw [h0, List.nil_append, List.enum]
                rw [fcSigs_enumFrom toolCalls 0, sig_normal_id toolCalls ?hh]
                · rw [msig]
                  rfl
                · intro tc htc v hv
                  rcases tsig tc htc with hin | ht
                  · simp at hin
                  · exact ht v hv
              · rw [if_neg hemp]
                simp only [Option.getD_some]
                rw [fcSigs_append]
                have h0 : fcSigs (if pyTruthy (contentVal) then [Part.text contentVal] else []) = [] := by
                  split <;> rfl
                rw [h0, List.nil_append, List.enum]
                rw [fcSigs_enumFrom toolCalls 0]
                apply sig_normal_id
                intro tc htc v hv
                rcases tsig tc htc with hin | ht
                · simp at hin
                · exact ht v hv
    · rw [if_pos (by simp [hcand])] at hparse
      simp only [Option.some.injEq] at hparse
      subst hparse
      simp [toolCallsTruthy] at htruthy

/-- Witness for C1: a one-call response carrying `thoughtSignature "SIG"`
parses to a tool call holding the token, and rebuilding attaches exactly
`some (.str "SIG")` to the rebuilt function-call part. -/
theorem thought_signature_roundtrip_witness :
    ∃ wc partList,
      (⟨Option.none,
        [⟨"model", [Part.functionCall ⟨"f", PyVal.dict [], "c1"⟩ (some (.str "SIG"))]⟩]⟩ :
          TransState).contents = ([] : List WireContent) ++ [wc] ∧
      responseParts
        (.dict [("candidates", .list [.dict [("content", .dict [("parts", .list
          [.dict [("functionCall", .dict [("name", .str "f"), ("args", .dict []), ("id", .str "c1")]),
                  ("thoughtSignature", .str "SIG")]])])]])]) = some partList ∧
      fcSigs wc.parts = respSigs partList ∧
      fcSigs wc.parts =
        ((⟨some "assistant", some PyVal.none,
            some [⟨some "c1", some "f", some (.str (jsonDumps (.dict []))), some (.str "SIG")⟩],
            Option.none, Option.none⟩ : Msg).tool_calls.getD []).map ToolCall.thought_signature := by
  exact thought_signature_roundtrip
    (.dict [("candidates", .list [.dict [("content", .dict [("parts", .list
      [.dict [("functionCall", .dict [("name", .str "f"), ("args", .dict []), ("id", .str "c1")]),
              ("thoughtSignature", .str "SIG")]])])]])])
    ⟨some "assistant", some PyVal.none,
      some [⟨some "c1", some "f", some (.str (jsonDumps (.dict []))), some (.str "SIG")⟩],
      Option.none, Option.none⟩
    [] ⟨Option.none, []⟩
    ⟨Option.none,
      [⟨"model", [Part.functionCall ⟨"f", PyVal.dict [], "c1"⟩ (some (.str "SIG"))]⟩]⟩
    rfl rfl rfl

/-- A hex-digit byte decodes back to its value. -/
theorem hexValB_hexDigitByte : ∀ d, d < 16 → hexValB (hexDigitByte d) = some d := by
  decide

/-- The four-digit recombination identity. -/
theorem hex4_recombine (m : Nat) (hm : m < 65536) :
    m / 4096 % 16 * 4096 + m / 256 % 16 * 256 + m / 16 % 16 * 16 + m % 16 = m := by
  omega

/-- `parseUEscape` on a non-high-surrogate four-digit escape. -/
theorem parseUEscape_eval (m : Nat) (hm : m < 65536)
    (hns : ¬ (55296 ≤ m ∧ m ≤ 56319)) (rest : List Nat) :
    parseUEscape (hex4Bytes m ++ rest) = some (m, 4) := by
  have h1 := hexValB_hexDigitByte (m / 4096 % 16) (by omega)
  have h2 := hexValB_hexDigitByte (m / 256 % 16) (by omega)
  have h3 := hexValB_hexDigitByte (m / 16 % 16) (by omega)
  have h4 := hexValB_hexDigitByte (m % 16) (by omega)
  simp only [hex4Bytes, List.cons_append, List.nil_append, parseUEscape, h1, h2, h3, h4]
  rw [hex4_recombine m hm]
  rw [if_neg hns]

/-- `parseUEscape` recombines a high+low surrogate escape pair. -/
theorem parseUEscape_pair (hi lo : Nat) (hhi : 55296 ≤ hi ∧ hi ≤ 56319)
    (hlo : 56320 ≤ lo ∧ lo ≤ 57343) (rest : List Nat) :
    parseUEscape (hex4Bytes hi ++ (92 :: 117 :: (hex4Bytes lo ++ rest))) =
      some (65536 + (hi - 55296) * 1024 + (lo - 56320), 10) := by
  have h1 := hexValB_hexDigitByte (hi / 4096 % 16) (by omega)
  have h2 := hexValB_hexDigitByte (hi / 256 % 16) (by omega)
  have h3 := hexValB_hexDigitByte (hi / 16 % 16) (by omega)
  have h4 := hexValB_hexDigitByte (hi % 16) (by omega)
  have h5 := hexValB_hexDigitByte (lo / 4096 % 16) (by omega)
  have h6 := hexValB_hexDigitByte (lo / 256 % 16) (by omega)
  have h7 := hexValB_hexDigitByte (lo / 16 % 16) (by omega)
  have h8 := hexValB_hexDigitByte (lo % 16) (by omega)
  simp only [hex4Bytes, List.cons_append, List.nil_append, parseUEscape,
    h1, h2, h3, h4, h5, h6, h7, h8]
  rw [hex4_recombine hi (by omega), hex4_recombine lo (by omega)]
  rw [if_pos hhi, if_pos hlo]

/-- Scanning one escaped scalar code point returns it and continues. -/
theorem parseStrBytes_esc (n : Nat) (h : IsScalar n) (tail : List Nat) :
    parseStrBytes (escBytes n ++ tail) =
      (parseStrBytes tail).map (fun pr => (n :: pr.1, pr.2)) := by
  obtain ⟨hlt, hns⟩ := h
  by_cases h34 : n = 34
  · subst h34
    have hesc : escBytes 34 = [92, 34] := by simp [escBytes]
    rw [hesc]
    show parseStrBytes (92 :: 34 :: tail) = _
    rw [parseStrBytes]
    simp
  · by_cases h92 : n = 92
    · subst h92
      have hesc : escBytes 92 = [92, 92] := by simp [escBytes]
      rw [hesc]
      show parseStrBytes (92 :: 92 :: tail) = _
      rw [parseStrBytes]
      simp
    · by_cases h8 : n = 8
      · subst h8
        have hesc : escBytes 8 = [92, 98] := by simp [escBytes]
        rw [hesc]
        show parseStrBytes (92 :: 98 :: tail) = _
        rw [parseStrBytes]
        simp
      · by_cases h9 : n = 9
        · subst h9
          have hesc : escBytes 9 = [92, 116] := by simp [escBytes]
          rw [hesc]
          show parseStrBytes (92 :: 116 :: tail) = _
          rw [parseStrBytes]
          simp
        · by_cases h10 : n = 10
          · subst h10
            have hesc : escBytes 10 = [92, 110] := by simp [escBytes]
            rw [hesc]
            show parseStrBytes (92 :: 110 :: tail) = _
            rw [parseStrBytes]
            simp
          · by_cases h12 : n = 12
            · subst h12
              have hesc : escBytes 12 = [92, 102] := by simp [escBytes]
              rw [hesc]
              show parseStrBytes (92 :: 102 :: tail) = _
              rw [parseStrBytes]
              simp
            · by_cases h13 : n = 13
              · subst h13
                have hesc : escBytes 13 = [92, 114] := by simp [escBytes]
                rw [hesc]
                show parseStrBytes (92 :: 114 :: tail) = _
                rw [parseStrBytes]
                simp
              · by_cases hlow : n < 32 ∨ 126 < n
                · by_cases hbmp : n ≤ 65535
                  · have hesc : escBytes n = 92 :: 117 :: hex4Bytes n := by
                      unfold escBytes
                      rw [if_neg h34, if_neg h92, if_neg h8, if_neg h9, if_neg h10,
                          if_neg h12, if_neg h13, if_pos hlow, if_pos hbmp]
                    rw [hesc]
                    show parseStrBytes (92 :: 117 :: (hex4Bytes n ++ tail)) = _
                    rw [parseStrBytes]
                    rw [parseUEscape_eval n (by omega) (by omega) tail]
                    have hdrop : (hex4Bytes n ++ tail).drop 4 = tail := by
                      simp [hex4Bytes]
                    simp [hdrop]
                  · have hesc : escBytes n =
                        (92 :: 117 :: hex4Bytes (55296 + (n - 65536) / 1024)) ++
                        (92 :: 117 :: hex4Bytes (56320 + (n - 65536) % 1024)) := by
                      unfold escBytes
                      rw [if_neg h34, if_neg h92, if_neg h8, if_neg h9, if_neg h10,
                          if_neg h12, if_neg h13, if_pos hlow, if_neg hbmp]
                    rw [hesc]
                    show parseStrBytes (92 :: 117 :: (hex4Bytes (55296 + (n - 65536) / 1024) ++
                        (92 :: 117 :: (hex4Bytes (56320 + (n - 65536) % 1024) ++ tail)))) = _
                    rw [parseStrBytes]
                    rw [parseUEscape_pair (55296 + (n - 65536) / 1024)
                          (56320 + (n - 65536) % 1024) (by omega) (by omega) tail]
                    have hcomb : 65536 + (55296 + (n - 65536) / 1024 - 55296) * 1024 +
                        (56320 + (n - 65536) % 1024 - 56320) = n := by omega
                    have hdrop : (hex4Bytes (55296 + (n - 65536) / 1024) ++
                        (92 :: 117 :: (hex4Bytes (56320 + (n - 65536) % 1024) ++ tail))).drop 10 = tail := by
                      simp [hex4Bytes]
                    have hcomb2 : 65536 + (n - 65536) / 1024 * 1024 + (n - 65536) % 1024 = n := by
                      omega
                    simp [hcomb, hcomb2, hdrop]
                · have hesc : escBytes n = [n] := by
                    unfold escBytes
                    rw [if_neg h34, if_neg h92, if_neg h8, if_neg h9, if_neg h10,
                        if_neg h12, if_neg h13, if_neg hlow]
                  rw [hesc, List.singleton_append]
                  rw [parseStrBytes.eq_def]
                  simp only []
                  rw [if_neg h34, if_neg h92, if_neg (by omega : ¬ n < 32)]

/-- Scanning an escaped scalar string finds the closing quote and returns the
original code points and the remainder. -/
theorem parseStrBytes_escString (s : List Nat) (h : ∀ n ∈ s, IsScalar n)
    (tail : List Nat) :
    parseStrBytes (escString s ++ 34 :: tail) = some (s, tail) := by
  induction s with
  | nil =>
    show parseStrBytes (34 :: tail) = some ([], tail)
    rw [parseStrBytes.eq_def]
    simp
  | cons n rest ih =>
    show parseStrBytes ((escBytes n ++ escString rest) ++ 34 :: tail) = _
    rw [List.append_assoc, parseStrBytes_esc n (h n (by simp)),
        ih (fun x hx => h x (by simp [hx]))]
    rfl

/-- Alphabet bytes decode back to their sextet. -/
theorem sextetOf_b64CharStd : ∀ m, m < 64 → sextetOf (b64CharStd m) = some m := by
  decide

/-- No alphabet byte is the padding byte. -/
theorem b64CharStd_ne_61 : ∀ m, m < 64 → b64CharStd m ≠ 61 := by
  decide

/-- The urlsafe substitution is undone byte-for-byte on alphabet bytes. -/
theorem fromUrlsafe_toUrlsafe : ∀ m, m < 64 → fromUrlsafe (toUrlsafe (b64CharStd m)) = b64CharStd m := by
  decide

/-- Base64 encoding of three bytes prepends one four-byte group. -/
theorem encB64_cons3 (a b c : Nat) (rest : List Nat) :
    encB64 (a :: b :: c :: rest) =
      b64CharStd (a / 4) :: b64CharStd (a % 4 * 16 + b / 16) ::
      b64CharStd (b % 16 * 4 + c / 64) :: b64CharStd (c % 64) :: encB64 rest := by
  unfold encB64
  have hp : b64PadLen (a :: b :: c :: rest).length = b64PadLen rest.length := by
    simp only [List.length_cons, b64PadLen]
    omega
  rw [hp]
  show (b64CharStd (a / 4) :: b64CharStd (a % 4 * 16 + b / 16) ::
      b64CharStd (b % 16 * 4 + c / 64) :: b64CharStd (c % 64) :: encB64Core rest) ++ _ = _
  simp

/-- `base64.b64decode` inverts `base64.b64encode` on byte lists. -/
theorem decB64_encB64 : ∀ (bs : List Nat), (∀ x ∈ bs, x < 256) →
    decB64 (encB64 bs) = some bs
  | [], _ => by rfl
  | [a], h => by
    have ha : a < 256 := h a (by simp)
    show decB64 (b64CharStd (a / 4) :: b64CharStd (a % 4 * 16) :: 61 :: 61 :: []) = some [a]
    unfold decB64
    rw [sextetOf_b64CharStd (a / 4) (by omega), sextetOf_b64CharStd (a % 4 * 16) (by omega)]
    simp
    omega
  | [a, b], h => by
    have ha : a < 256 := h a (by simp)
    have hb : b < 256 := h b (by simp)
    show decB64 (b64CharStd (a / 4) :: b64CharStd (a % 4 * 16 + b / 16) ::
        b64CharStd (b % 16 * 4) :: 61 :: []) = some [a, b]
    unfold decB64
    rw [sextetOf_b64CharStd (a / 4) (by omega),
        sextetOf_b64CharStd (a % 4 * 16 + b / 16) (by omega)]
    simp only []
    rw [if_neg (b64CharStd_ne_61 (b % 16 * 4) (by omega))]
    rw [sextetOf_b64CharStd (b % 16 * 4) (by omega)]
    simp
    constructor <;> omega
  | a :: b :: c :: rest, h => by
    have ha : a < 256 := h a (by simp)
    have hb : b < 256 := h b (by simp)
    have hc : c < 256 := h c (by simp)
    rw [encB64_cons3]
    unfold decB64
    rw [sextetOf_b64CharStd (a / 4) (by omega),
        sextetOf_b64CharStd (a % 4 * 16 + b / 16) (by omega)]
    simp only []
    rw [if_neg (b64CharStd_ne_61 (b % 16 * 4 + c / 64) (by omega))]
    rw [sextetOf_b64CharStd (b % 16 * 4 + c / 64) (by omega)]
    simp only []
    rw [if_neg (b64CharStd_ne_61 (c % 64) (by omega))]
    rw [sextetOf_b64CharStd (c % 64) (by omega)]
    simp only []
    rw [decB64_encB64 rest (fun x hx => h x (by simp [hx]))]
    simp only [Option.map_some', Option.some.injEq, List.cons.injEq]
    refine ⟨by omega, by omega, by omega, trivial⟩

/-- Every byte the core encoder emits is an alphabet byte. -/
theorem encB64Core_alphabet : ∀ (bs : List Nat), (∀ x ∈ bs, x < 256) →
    ∀ y ∈ encB64Core bs, ∃ m, m < 64 ∧ y = b64CharStd m
  | [], _ => by simp [encB64Core]
  | [a], h => by
    have ha : a < 256 := h a (by simp)
    intro y hy
    simp [encB64Core] at hy
    rcases hy with hy | hy <;> subst hy
    · exact ⟨a / 4, by omega, rfl⟩
    · exact ⟨a % 4 * 16, by omega, rfl⟩
  | [a, b], h => by
    have ha : a < 256 := h a (by simp)
    have hb : b < 256 := h b (by simp)
    intro y hy
    simp [encB64Core] at hy
    rcases hy with hy | hy | hy <;> subst hy
    · exact ⟨a / 4, by omega, rfl⟩
    · exact ⟨a % 4 * 16 + b / 16, by omega, rfl⟩
    · exact ⟨b % 16 * 4, by omega, rfl⟩
  | a :: b :: c :: rest, h => by
    have ha : a < 256 := h a (by simp)
    have hb : b < 256 := h b (by simp)
    have hc : c < 256 := h c (by simp)
    intro y hy
    show ∃ m, m < 64 ∧ y = b64CharStd m
    have hy' : y ∈ b64CharStd (a / 4) :: b64CharStd (a % 4 * 16 + b / 16) ::
        b64CharStd (b % 16 * 4 + c / 64) :: b64CharStd (c % 64) :: encB64Core rest := hy
    simp only [List.mem_cons] at hy'
    rcases hy' with hy' | hy' | hy' | hy' | hy'
    · exact ⟨a / 4, by omega, hy'⟩
    · exact ⟨a % 4 * 16 + b / 16, by omega, hy'⟩
    · exact ⟨b % 16 * 4 + c / 64, by omega, hy'⟩
    · exact ⟨c % 64, by omega, hy'⟩
    · exact encB64Core_alphabet rest (fun x hx => h x (by simp [hx])) y hy'

/-- Dropping leading padding bytes. -/
theorem dropWhile_replicate61 (k : Nat) (l : List Nat) :
    (List.replicate k 61 ++ l).dropWhile (fun c => c == 61) =
      l.dropWhile (fun c => c == 61) := by
  induction k with
  | zero => rfl
  | succ k ih => simp [List.replicate_succ, List.dropWhile, ih]

/-- `.rstrip("=")` removes exactly the padding when the prefix has no `=`. -/
theorem rstripEq_core (xs : List Nat) (k : Nat) (h : ∀ y ∈ xs, y ≠ 61) :
    rstripEq (xs ++ List.replicate k 61) = xs := by
  unfold rstripEq
  rw [List.reverse_append, List.reverse_replicate, dropWhile_replicate61]
  cases hx : xs.reverse with
  | nil =>
    have : xs = [] := by simpa using congrArg List.reverse hx
    simp [this]
  | cons y t =>
    have hy : y ≠ 61 := h y (by rw [← List.mem_reverse, hx]; simp)
    rw [List.dropWhile_cons]
    simp only [hy, beq_iff_eq, if_false, reduceIte]
    rw [← hx, List.reverse_reverse]

/-- The core encoding's length determines the padding that `padB64` must
re-append. -/
theorem encB64Core_padlen : ∀ (bs : List Nat),
    (4 - (encB64Core bs).length % 4) % 4 = b64PadLen bs.length
  | [] => by simp [encB64Core, b64PadLen]
  | [a] => by simp [encB64Core, b64PadLen]
  | [a, b] => by simp [encB64Core, b64PadLen]
  | a :: b :: c :: rest => by
    have ih := encB64Core_padlen rest
    show (4 - (encB64Core (a :: b :: c :: rest)).length % 4) % 4 = _
    have hlen : (encB64Core (a :: b :: c :: rest)).length = (encB64Core rest).length + 4 := by
      show (b64CharStd (a / 4) :: b64CharStd (a % 4 * 16 + b / 16) ::
        b64CharStd (b % 16 * 4 + c / 64) :: b64CharStd (c % 64) :: encB64Core rest).length = _
      simp
    rw [hlen]
    simp only [List.length_cons, b64PadLen] at ih ⊢
    omega

/-- Hex-digit bytes are ASCII. -/
theorem hex4Bytes_ascii (m : Nat) : ∀ c ∈ hex4Bytes m, c < 128 := by
  intro c hc
  simp only [hex4Bytes, List.mem_cons, List.not_mem_nil, or_false] at hc
  rcases hc with h | h | h | h <;> subst h <;> unfold hexDigitByte <;> split <;> omega

/-- Escaped code points are ASCII bytes. -/
theorem escBytes_ascii (n : Nat) : ∀ c ∈ escBytes n, c < 128 := by
  intro c hc
  unfold escBytes at hc
  split_ifs at hc with h1 h2 h3 h4 h5 h6 h7 h8 h9
  · simp at hc; omega
  · simp at hc; omega
  · simp at hc; omega
  · simp at hc; omega
  · simp at hc; omega
  · simp at hc; omega
  · simp at hc; omega
  · simp only [List.mem_cons] at hc
    rcases hc with h | h | h
    · omega
    · omega
    · exact hex4Bytes_ascii n c h
  · simp only [List.mem_append, List.mem_cons] at hc
    rcases hc with (h | h | h) | (h | h | h)
    · omega
    · omega
    · exact hex4Bytes_ascii _ c h
    · omega
    · omega
    · exact hex4Bytes_ascii _ c h
  · simp at hc; omega

/-- Escaped strings are ASCII byte lists. -/
theorem escString_ascii : ∀ (s : List Nat), ∀ c ∈ escString s, c < 128
  | [], _, hc => by cases hc
  | n :: rest, c, hc => by
    rcases List.mem_append.mp hc with h | h
    · exact escBytes_ascii n c h
    · exact escString_ascii rest c h

/-- The serialized payload is ASCII. -/
theorem statePayload_ascii (v p : List Nat) : ∀ c ∈ statePayload v p, c < 128 := by
  intro c hc
  unfold statePayload at hc
  simp only [List.append_assoc, List.mem_append, List.mem_cons, List.not_mem_nil,
    or_false] at hc
  rcases hc with h | h | h | h | h
  · rcases h with h | h | h | h | h | h | h | h | h | h | h | h | h | h <;> omega
  · exact escString_ascii v c h
  · rcases h with h | h | h | h | h | h | h | h | h | h | h | h | h | h | h | h | h <;> omega
  · exact escString_ascii p c h
  · rcases h with h | h <;> omega

/-- The member scanner consumes the trailing `"projectId": "<esc p>"}`
fragment of the payload (entered after the separating comma and space). -/
theorem parseStateMembers_one (fuel : Nat) (p : List Nat) (hp : ∀ n ∈ p, IsScalar n) :
    parseStateMembers (fuel + 1)
      ([32, 34, 112, 114, 111, 106, 101, 99, 116, 73, 100, 34, 58, 32, 34] ++
        (escString p ++ [34, 125])) = some ([(projectIdKey, p)], []) := by
  rw [parseStateMembers]
  rw [show skipWsB ([32, 34, 112, 114, 111, 106, 101, 99, 116, 73, 100, 34, 58, 32, 34] ++
      (escString p ++ [34, 125])) =
      34 :: ([112, 114, 111, 106, 101, 99, 116, 73, 100, 34, 58, 32, 34] ++
        (escString p ++ [34, 125])) from rfl]
  simp only []
  have hkey : parseStrBytes ([112, 114, 111, 106, 101, 99, 116, 73, 100, 34, 58, 32, 34] ++
      (escString p ++ [34, 125])) =
      some (projectIdKey, [58, 32, 34] ++ (escString p ++ [34, 125])) := by
    exact parseStrBytes_escString projectIdKey (by decide)
      ([58, 32, 34] ++ (escString p ++ [34, 125]))
  rw [hkey]
  simp only []
  rw [show skipWsB ([58, 32, 34] ++ (escString p ++ [34, 125])) =
      58 :: ([32, 34] ++ (escString p ++ [34, 125])) from rfl]
  simp only []
  rw [parseMemberVal]
  rw [show skipWsB ([32, 34] ++ (escString p ++ [34, 125])) =
      34 :: (escString p ++ [34, 125]) from rfl]
  simp only []
  have hval : parseStrBytes (escString p ++ [34, 125]) = some (p, [125]) :=
    parseStrBytes_escString p hp [125]
  rw [hval]
  simp only []
  rw [parseMemberSep]
  rfl

/-- The member scanner reads both members of the payload object in order. -/
theorem parseStateMembers_two (fuel : Nat) (v p : List Nat)
    (hv : ∀ n ∈ v, IsScalar n) (hp : ∀ n ∈ p, IsScalar n) :
    parseStateMembers (fuel + 2)
      ([34, 118, 101, 114, 105, 102, 105, 101, 114, 34, 58, 32, 34] ++
        (escString v ++
          ([34, 44, 32, 34, 112, 114, 111, 106, 101, 99, 116, 73, 100, 34, 58, 32, 34] ++
            (escString p ++ [34, 125])))) =
      some ([(verifierKey, v), (projectIdKey, p)], []) := by
  rw [parseStateMembers]
  rw [show skipWsB ([34, 118, 101, 114, 105, 102, 105, 101, 114, 34, 58, 32, 34] ++
      (escString v ++
        ([34, 44, 32, 34, 112, 114, 111, 106, 101, 99, 116, 73, 100, 34, 58, 32, 34] ++
          (escString p ++ [34, 125])))) =
      34 :: ([118, 101, 114, 105, 102, 105, 101, 114, 34, 58, 32, 34] ++
        (escString v ++
          ([34, 44, 32, 34, 112, 114, 111, 106, 101, 99, 116, 73, 100, 34, 58, 32, 34] ++
            (escString p ++ [34, 125])))) from rfl]
  simp only []
  have hkey : parseStrBytes ([118, 101, 114, 105, 102, 105, 101, 114, 34, 58, 32, 34] ++
      (escString v ++
        ([34, 44, 32, 34, 112, 114, 111, 106, 101, 99, 116, 73, 100, 34, 58, 32, 34] ++
          (escString p ++ [34, 125])))) =
      some (verifierKey, [58, 32, 34] ++
        (escString v ++
          ([34, 44, 32, 34, 112, 114, 111, 106, 101, 99, 116, 73, 100, 34, 58, 32, 34] ++
            (escString p ++ [34, 125])))) := by
    exact parseStrBytes_escString verifierKey (by decide) ([58, 32, 34] ++
      (escString v ++
        ([34, 44, 32, 34, 112, 114, 111, 106, 101, 99, 116, 73, 100, 34, 58, 32, 34] ++
          (escString p ++ [34, 125]))))
  rw [hkey]
  simp only []
  rw [show skipWsB ([58, 32, 34] ++
      (escString v ++
        ([34, 44, 32, 34, 112, 114, 111, 106, 101, 99, 116, 73, 100, 34, 58, 32, 34] ++
          (escString p ++ [34, 125])))) =
      58 :: ([32, 34] ++
        (escString v ++
          ([34, 44, 32, 34, 112, 114, 111, 106, 101, 99, 116, 73, 100, 34, 58, 32, 34] ++
            (escString p ++ [34, 125])))) from rfl]
  simp only []
  rw [parseMemberVal]
  rw [show skipWsB ([32, 34] ++
      (escString v ++
        ([34, 44, 32, 34, 112, 114, 111, 106, 101, 99, 116, 73, 100, 34, 58, 32, 34] ++
          (escString p ++ [34, 125])))) =
      34 :: (escString v ++
        ([34, 44, 32, 34, 112, 114, 111, 106, 101, 99, 116, 73, 100, 34, 58, 32, 34] ++
          (escString p ++ [34, 125]))) from rfl]
  simp only []
  have hval : parseStrBytes (escString v ++
      ([34, 44, 32, 34, 112, 114, 111, 106, 101, 99, 116, 73, 100, 34, 58, 32, 34] ++
        (escString p ++ [34, 125]))) =
      some (v, [44, 32, 34, 112, 114, 111, 106, 101, 99, 116, 73, 100, 34, 58, 32, 34] ++
        (escString p ++ [34, 125])) := by
    exact parseStrBytes_escString v hv ([44, 32, 34, 112, 114, 111, 106, 101, 99, 116, 73,
      100, 34, 58, 32, 34] ++ (escString p ++ [34, 125]))
  rw [hval]
  simp only []
  rw [parseMemberSep]
  rw [show skipWsB ([44, 32, 34, 112, 114, 111, 106, 101, 99, 116, 73, 100, 34, 58, 32, 34] ++
      (escString p ++ [34, 125])) =
      44 :: ([32, 34, 112, 114, 111, 106, 101, 99, 116, 73, 100, 34, 58, 32, 34] ++
        (escString p ++ [34, 125])) from rfl]
  simp only []
  rw [parseStateMembers_one fuel p hp]
  rfl

/-- `json.loads` recovers exactly the two members from the serialized
payload. -/
theorem parseStateObj_payload (v p : List Nat)
    (hv : ∀ n ∈ v, IsScalar n) (hp : ∀ n ∈ p, IsScalar n) :
    parseStateObj (statePayload v p) = some [(verifierKey, v), (projectIdKey, p)] := by
  have hassoc : statePayload v p =
      [123, 34, 118, 101, 114, 105, 102, 105, 101, 114, 34, 58, 32, 34] ++
        (escString v ++
          ([34, 44, 32, 34, 112, 114, 111, 106, 101, 99, 116, 73, 100, 34, 58, 32, 34] ++
            (escString p ++ [34, 125]))) := by
    simp [statePayload]
  rw [hassoc]
  unfold parseStateObj
  rw [show skipWsB ([123, 34, 118, 101, 114, 105, 102, 105, 101, 114, 34, 58, 32, 34] ++
      (escString v ++
        ([34, 44, 32, 34, 112, 114, 111, 106, 101, 99, 116, 73, 100, 34, 58, 32, 34] ++
          (escString p ++ [34, 125])))) =
      123 :: ([34, 118, 101, 114, 105, 102, 105, 101, 114, 34, 58, 32, 34] ++
        (escString v ++
          ([34, 44, 32, 34, 112, 114, 111, 106, 101, 99, 116, 73, 100, 34, 58, 32, 34] ++
            (escString p ++ [34, 125])))) from rfl]
  simp only []
  rw [show skipWsB ([34, 118, 101, 114, 105, 102, 105, 101, 114, 34, 58, 32, 34] ++
      (escString v ++
        ([34, 44, 32, 34, 112, 114, 111, 106, 101, 99, 116, 73, 100, 34, 58, 32, 34] ++
          (escString p ++ [34, 125])))) =
      34 :: ([118, 101, 114, 105, 102, 105, 101, 114, 34, 58, 32, 34] ++
        (escString v ++
          ([34, 44, 32, 34, 112, 114, 111, 106, 101, 99, 116, 73, 100, 34, 58, 32, 34] ++
            (escString p ++ [34, 125])))) from rfl]
  simp only []
  rw [show (34 :: ([118, 101, 114, 105, 102, 105, 101, 114, 34, 58, 32, 34] ++
      (escString v ++
        ([34, 44, 32, 34, 112, 114, 111, 106, 101, 99, 116, 73, 100, 34, 58, 32, 34] ++
          (escString p ++ [34, 125])))) : List Nat) =
      [34, 118, 101, 114, 105, 102, 105, 101, 114, 34, 58, 32, 34] ++
        (escString v ++
          ([34, 44, 32, 34, 112, 114, 111, 106, 101, 99, 116, 73, 100, 34, 58, 32, 34] ++
            (escString p ++ [34, 125]))) from rfl]
  have hlen : ([123, 34, 118, 101, 114, 105, 102, 105, 101, 114, 34, 58, 32, 34] ++
      (escString v ++
        ([34, 44, 32, 34, 112, 114, 111, 106, 101, 99, 116, 73, 100, 34, 58, 32, 34] ++
          (escString p ++ [34, 125])))).length + 1 =
      ((escString v).length + (escString p).length + 32) + 2 := by
    simp only [List.length_append, List.length_cons, List.length_nil]
    omega
  rw [hlen]
  rw [parseStateMembers_two ((escString v).length + (escString p).length + 32) v p hv hp]
  rfl

/-- The urlsafe substitution never produces the padding byte on alphabet
input. -/
theorem toUrlsafe_b64_ne61 : ∀ m, m < 64 → toUrlsafe (b64CharStd m) ≠ 61 := by
  decide

/-- Shifting to the urlsafe alphabet and back is the identity on alphabet
bytes. -/
theorem map_fromUrl_toUrl (l : List Nat)
    (h : ∀ y ∈ l, ∃ m, m < 64 ∧ y = b64CharStd m) :
    (l.map toUrlsafe).map fromUrlsafe = l := by
  rw [List.map_map]
  have hid : ∀ y ∈ l, (fromUrlsafe ∘ toUrlsafe) y = y := by
    intro y hy
    obtain ⟨m, hm, rfl⟩ := h y hy
    exact fromUrlsafe_toUrlsafe m hm
  calc l.map (fromUrlsafe ∘ toUrlsafe) = l.map id := List.map_congr_left hid
    _ = l := List.map_id _

/-- The urlsafe form of the padded encoding splits into a shifted core and
untouched padding. -/
theorem encB64_map_toUrl (bs : List Nat) :
    (encB64 bs).map toUrlsafe =
      (encB64Core bs).map toUrlsafe ++ List.replicate (b64PadLen bs.length) 61 := by
  rw [encB64, List.map_append, List.map_replicate]
  rfl

/-- A padded encoding has length divisible by four. -/
theorem encB64_len_mod4 (bs : List Nat) : (encB64 bs).length % 4 = 0 := by
  have h := encB64Core_padlen bs
  have hl : (encB64 bs).length = (encB64Core bs).length + b64PadLen bs.length := by
    simp [encB64]
  rw [hl]
  omega

/-- Re-padding a string whose length is already a multiple of four is the
identity. -/
theorem padB64_of_mod4 (l : List Nat) (h : l.length % 4 = 0) : padB64 l = l := by
  unfold padB64
  rw [h]
  simp

/-- Normalizing the stripped urlsafe encoding (re-pad, shift back) recovers
the padded standard encoding. -/
theorem strip_then_pad (bs : List Nat) (h : ∀ x ∈ bs, x < 256) :
    (padB64 (rstripEq ((encB64 bs).map toUrlsafe))).map fromUrlsafe = encB64 bs := by
  have hne : ∀ y ∈ (encB64Core bs).map toUrlsafe, y ≠ 61 := by
    intro y hy
    obtain ⟨x, hx, rfl⟩ := List.mem_map.mp hy
    obtain ⟨m, hm, rfl⟩ := encB64Core_alphabet bs h x hx
    exact toUrlsafe_b64_ne61 m hm
  have h2 : rstripEq ((encB64 bs).map toUrlsafe) = (encB64Core bs).map toUrlsafe := by
    rw [encB64_map_toUrl]
    exact rstripEq_core _ _ hne
  have h3 : padB64 ((encB64Core bs).map toUrlsafe) =
      (encB64Core bs).map toUrlsafe ++ List.replicate (b64PadLen bs.length) 61 := by
    unfold padB64
    rw [List.length_map, encB64Core_padlen]
  rw [h2, h3, List.map_append, map_fromUrl_toUrl _ (encB64Core_alphabet bs h),
      List.map_replicate]
  rw [encB64]
  rfl

/-- Normalizing the still-padded urlsafe encoding also recovers the padded
standard encoding. -/
theorem pad_of_padded (bs : List Nat) (h : ∀ x ∈ bs, x < 256) :
    (padB64 ((encB64 bs).map toUrlsafe)).map fromUrlsafe = encB64 bs := by
  rw [padB64_of_mod4 _ (by rw [List.length_map]; exact encB64_len_mod4 bs)]
  rw [encB64_map_toUrl, List.map_append, map_fromUrl_toUrl _ (encB64Core_alphabet bs h),
      List.map_replicate]
  rw [encB64]
  rfl

/-- Any state string whose normalization is the padded standard encoding of
the payload decodes to the original pair. -/
theorem decode_state_of_norm (v p : List Nat)
    (hv : ∀ n ∈ v, IsScalar n) (hp : ∀ n ∈ p, IsScalar n)
    (s : List Nat) (hs : (padB64 s).map fromUrlsafe = encB64 (statePayload v p)) :
    decode_state s = some (v, p) := by
  have hasc : ∀ c ∈ statePayload v p, c < 128 := statePayload_ascii v p
  have h256 : ∀ c ∈ statePayload v p, c < 256 := by
    intro c hc
    have := hasc c hc
    omega
  have hdec : decB64 (encB64 (statePayload v p)) = some (statePayload v p) :=
    decB64_encB64 _ h256
  have hall : (statePayload v p).all (fun c => decide (c < 128)) = true := by
    simp only [List.all_eq_true, decide_eq_true_eq]
    exact hasc
  have hutf : utf8DecodeAscii (statePayload v p) = some (statePayload v p) := by
    unfold utf8DecodeAscii
    rw [hall]
    rfl
  have hobj : parseStateObj (statePayload v p) = some [(verifierKey, v), (projectIdKey, p)] :=
    parseStateObj_payload v p hv hp
  have hl1 : lookupState [(verifierKey, v), (projectIdKey, p)] verifierKey = some v := by
    unfold lookupState
    rw [if_pos rfl]
  have hl2 : lookupState [(verifierKey, v), (projectIdKey, p)] projectIdKey = some p := by
    unfold lookupState
    rw [if_neg (by decide : ¬ verifierKey = projectIdKey)]
    unfold lookupState
    rw [if_pos rfl]
  unfold decode_state
  rw [hs]
  simp only [hdec, Option.bind_eq_bind, Option.some_bind, hutf, hobj, hl1, hl2,
    Option.getD_some]

/-- C7: for every verifier string `v` and project hint `p` (lists of Unicode
scalar values, which is what Python strings built from `secrets.token_urlsafe`
and project ids are), `_decode_state(_encode_state(v, p))` returns exactly
`(v, p)`; this covers verifiers containing the base64-special characters
`+`, `/`, `=`, and the round trip also succeeds on the variant of the
encoded string that still carries its base64 `=` padding, so the result is
independent of padding. -/
theorem decode_state_encode_state (v p : List Nat)
    (hv : ∀ n ∈ v, IsScalar n) (hp : ∀ n ∈ p, IsScalar n) :
    decode_state (encode_state v p) = some (v, p) ∧
    decode_state ((encB64 (statePayload v p)).map toUrlsafe) = some (v, p) := by
  have h256 : ∀ x ∈ statePayload v p, x < 256 := by
    intro x hx
    have := statePayload_ascii v p x hx
    omega
  constructor
  · apply decode_state_of_norm v p hv hp
    exact strip_then_pad (statePayload v p) h256
  · apply decode_state_of_norm v p hv hp
    exact pad_of_padded (statePayload v p) h256

/-- C7 witness: the round trip at a concrete verifier containing `+`, `/`,
`=` and an astral code point, with project hint `x`. -/
theorem decode_state_encode_state_witness :
    (∀ n ∈ ([43, 47, 61, 128512] : List Nat), IsScalar n) ∧
    (∀ n ∈ ([120] : List Nat), IsScalar n) ∧
    (decode_state (encode_state [43, 47, 61, 128512] [120]) =
        some ([43, 47, 61, 128512], [120]) ∧
      decode_state ((encB64 (statePayload [43, 47, 61, 128512] [120])).map toUrlsafe) =
        some ([43, 47, 61, 128512], [120])) :=
  ⟨by decide, by decide,
    decode_state_encode_state [43, 47, 61, 128512] [120] (by decide) (by decide)⟩

end Ouroboros
